import Mathlib

/-!
# Verification of the wasm_vault lending-vault contract

A shallow embedding of the lending lifecycle of the `wasm_vault` CosmWasm
contract: the counter-offer auction book with bounded capacity and eviction,
the escrow/outstanding-debt accounting, funding, repayment, and the
liquidation settlement algorithm.

Coin amounts are the contract's `Uint256` values, embedded as `Nat` with
explicit `< 2 ^ 256` checks where the source performs checked arithmetic and
explicit `< 2 ^ 128` checks where the source narrows to `Uint128` at the
transfer boundary.  Addresses and denominations are strings.  The persistent
`Map<Addr, OpenInterest>` of counter offers is embedded as a list of
key/value pairs kept strictly sorted by key, matching the ascending-order
iteration of the storage map.  Host queries (bank balances, bonded denom,
staking rewards, delegations, block time) are passed in as an explicit
environment record.
-/

/-- The `Uint256` overflow bound used by the contract's checked arithmetic. -/
def U256_BOUND : Nat := 2 ^ 256

/-- The `Uint128` bound used when narrowing amounts at the transfer boundary. -/
def U128_BOUND : Nat := 2 ^ 128

/-- `cosmwasm_std::Coin`: a denomination together with a `Uint256` amount. -/
structure Coin where
  denom : String
  amount : Nat
deriving DecidableEq, Repr

/-- `types::OpenInterest`: the posted loan terms. -/
structure OpenInterest where
  liquidity_coin : Coin
  interest_coin : Coin
  expiry_duration : Nat
  collateral : Coin
deriving DecidableEq, Repr

/-- A validator delegation as returned by `query_all_delegations`. -/
structure Delegation where
  validator : String
  amount : Coin
deriving DecidableEq, Repr

/-- Outgoing instructions appended to the `Response` by the entry points. -/
inductive VaultMsg where
  | BankSend (to_address : String) (amount : List Coin)
  | WithdrawDelegatorReward (validator : String)
  | Undelegate (validator : String) (amount : Coin)
deriving DecidableEq, Repr

/-- `error::ContractError` (the variants reachable from the lending core). -/
inductive ContractError where
  | Std (msg : String)
  | Unauthorized
  | NoOpenInterest
  | OpenInterestAlreadyExists
  | LenderAlreadySet
  | NoLender
  | OpenInterestNotExpired
  | InvalidCoinAmount (field : String)
  | InvalidCoinDenom (field : String)
  | InvalidExpiryDuration
  | CounterOfferTermsMismatch
  | CounterOfferNotSmaller
  | CounterOfferEscrowMismatch (denom : String) (expected received : Nat)
  | OpenInterestFundingMismatch (denom : String) (expected received : Nat)
  | OpenInterestMismatch
  | CounterOfferAlreadyExists
  | CounterOfferNotCompetitive (minimum : Nat) (denom : String)
  | CounterOfferNotFound (proposer : String)
  | CounterOfferMismatch (proposer : String)
  | OutstandingDebt (amount : Coin)
  | InsufficientBalance (denom : String) (available requested : Nat)
  | RepaymentAmountOverflow (denom : String) (requested : Nat)
  | LiquidationAmountOverflow (denom : String) (requested : Nat)
  | UndelegationAmountOverflow (denom : String) (requested : Nat)
deriving DecidableEq, Repr

/-- The persistent items of `state.rs` relevant to the lending lifecycle.
`counter_offers` is the `Map<&Addr, OpenInterest>`, kept strictly sorted by
address so that its list order is the map's `Order::Ascending` range order. -/
structure VaultState where
  owner : String
  lender : Option String
  outstanding_debt : Option Coin
  open_interest : Option OpenInterest
  open_interest_expiry : Option Nat
  counter_offers : List (String × OpenInterest)
deriving DecidableEq, Repr

/-- The host environment visible through queries during one call. -/
structure EnvInfo where
  blockTime : Nat
  balances : String → Nat
  bondedDenom : String
  /-- `query_delegation_total_rewards` summed over every reward coin
  (`helpers::query_staking_rewards`). -/
  totalRewards : Nat
  /-- `query_delegation_total_rewards` restricted to one denom
  (`query_staking_rewards_for_denom`). -/
  rewardsOf : String → Nat
  delegations : List Delegation

/-- `state.rs`: `MAX_COUNTER_OFFERS = u8::MAX`. -/
def MAX_COUNTER_OFFERS : Nat := 2 ^ 8 - 1

/-! ## The counter-offer book as a sorted association list -/

/-- Lexicographic strict order on character lists by code point. -/
def charsLtB : List Char → List Char → Bool
  | _, [] => false
  | [], _ :: _ => true
  | a :: as, b :: bs =>
    if a.toNat < b.toNat then true
    else if b.toNat < a.toNat then false
    else charsLtB as bs

/-- The storage map's strict key order: lexicographic over the address
string (the map iterates keys in ascending byte order; addresses are
ASCII, so code-point order coincides with byte order). -/
def keyLt (a b : String) : Bool := charsLtB a.data b.data

/-- Executable check that a book's keys are strictly increasing. -/
def bookSortedB : List (String × OpenInterest) → Bool
  | [] => true
  | [_] => true
  | a :: b :: rest => keyLt a.1 b.1 && bookSortedB (b :: rest)

/-- `COUNTER_OFFERS.may_load storage addr`. -/
def lookupBook (book : List (String × OpenInterest)) (k : String) :
    Option OpenInterest :=
  match book with
  | [] => none
  | (k', v) :: rest => if k' = k then some v else lookupBook rest k

/-- `COUNTER_OFFERS.save storage addr offer`: insert keeping the key order. -/
def insertBook (k : String) (v : OpenInterest) :
    List (String × OpenInterest) → List (String × OpenInterest)
  | [] => [(k, v)]
  | (k', v') :: rest =>
    if keyLt k k' then (k, v) :: (k', v') :: rest
    else if k = k' then (k, v) :: rest
    else (k', v') :: insertBook k v rest

/-- `COUNTER_OFFERS.remove storage addr`. -/
def removeBook (book : List (String × OpenInterest)) (k : String) :
    List (String × OpenInterest) :=
  book.filter (fun e => e.1 ≠ k)

/-- Sum of the escrowed liquidity amounts of all book entries. -/
def bookSum : List (String × OpenInterest) → Nat
  | [] => 0
  | e :: rest => e.2.liquidity_coin.amount + bookSum rest

/-- Keys are strictly increasing (the storage map's well-formedness). -/
def BookSorted (book : List (String × OpenInterest)) : Prop :=
  book.Pairwise (fun a b => keyLt a.1 b.1 = true)

/-! ## counter_offer/helpers.rs -/

/-- `validate_counter_offer`: terms must match except for a strictly smaller,
nonzero liquidity amount. -/
def validate_counter_offer (active proposed : OpenInterest) :
    Except ContractError Unit :=
  if proposed.liquidity_coin.denom ≠ active.liquidity_coin.denom
      ∨ proposed.interest_coin ≠ active.interest_coin
      ∨ proposed.collateral ≠ active.collateral
      ∨ proposed.expiry_duration ≠ active.expiry_duration then
    .error .CounterOfferTermsMismatch
  else if proposed.liquidity_coin.amount = 0 then
    .error (.InvalidCoinAmount "liquidity_coin")
  else if proposed.liquidity_coin.amount ≥ active.liquidity_coin.amount then
    .error .CounterOfferNotSmaller
  else
    .ok ()

/-- Sum of the attached funds restricted to one denom. -/
def fundsSum (funds : List Coin) (denom : String) : Nat :=
  (funds.filter (fun c => c.denom = denom)).foldl (fun acc c => acc + c.amount) 0

/-- `validate_counter_offer_escrow`: attached funds in the liquidity denom
must sum exactly to the proposed liquidity amount. -/
def validate_counter_offer_escrow (funds : List Coin)
    (proposed : OpenInterest) : Except ContractError Unit :=
  let denom := proposed.liquidity_coin.denom
  let expected := proposed.liquidity_coin.amount
  let received := fundsSum funds denom
  if received ≠ expected then
    .error (.CounterOfferEscrowMismatch denom expected received)
  else
    .ok ()

/-- `add_outstanding_debt`: denom-checked, overflow-checked accumulation. -/
def add_outstanding_debt (current : Option Coin) (coin : Coin) :
    Except ContractError (Option Coin) :=
  match current with
  | some debt =>
    if debt.denom ≠ coin.denom then
      .error (.Std "Outstanding debt denom mismatch")
    else if debt.amount + coin.amount < U256_BOUND then
      .ok (some ⟨debt.denom, debt.amount + coin.amount⟩)
    else
      .error (.Std "overflow")
  | none => .ok (some coin)

/-- `release_outstanding_debt`: denom-checked, underflow-checked release that
drops the item back to `None` when the debt reaches zero. -/
def release_outstanding_debt (current : Option Coin) (coin : Coin) :
    Except ContractError (Option Coin) :=
  match current with
  | none => .error (.Std "No outstanding debt to release")
  | some debt =>
    if debt.denom ≠ coin.denom then
      .error (.Std "Outstanding debt denom mismatch")
    else if coin.amount ≤ debt.amount then
      .ok (if debt.amount - coin.amount = 0 then none
           else some ⟨debt.denom, debt.amount - coin.amount⟩)
    else
      .error (.Std "underflow")

/-- The scan loop of `snapshot_counter_offer_capacity`: counts the entries and
keeps the entry with the minimum liquidity amount, replacing only on a strict
decrease so that the first minimum in ascending address order is retained. -/
def scanWorst (worst : String × OpenInterest) (count : Nat) :
    List (String × OpenInterest) → Nat × (String × OpenInterest)
  | [] => (count, worst)
  | e :: rest =>
    if e.2.liquidity_coin.amount < worst.2.liquidity_coin.amount then
      scanWorst e (count + 1) rest
    else
      scanWorst worst (count + 1) rest

/-- `snapshot_counter_offer_capacity`: `None` on an empty book, otherwise the
entry count together with the worst (minimum-amount, first-seen) entry. -/
def snapshot_counter_offer_capacity (book : List (String × OpenInterest)) :
    Option (Nat × (String × OpenInterest)) :=
  match book with
  | [] => none
  | first :: rest => some (scanWorst first 1 rest)

/-- `determine_eviction_candidate`: below capacity no eviction happens; at
capacity an incoming amount not strictly above the current minimum is
rejected as not competitive, otherwise the worst entry is the candidate. -/
def determine_eviction_candidate (book : List (String × OpenInterest))
    (proposed : OpenInterest) :
    Except ContractError (Option (String × OpenInterest)) :=
  match snapshot_counter_offer_capacity book with
  | none => .ok none
  | some (count, worst) =>
    if count < MAX_COUNTER_OFFERS then
      .ok none
    else if proposed.liquidity_coin.amount ≤ worst.2.liquidity_coin.amount then
      .error (.CounterOfferNotCompetitive worst.2.liquidity_coin.amount
        proposed.liquidity_coin.denom)
    else
      .ok (some worst)

/-! ## counter_offer/propose.rs, cancel.rs, accept.rs -/

/-- `propose`: validate the offer and its escrow, reject duplicates, evict
the worst entry when at capacity, and record the escrow debt and the entry. -/
def propose (s : VaultState) (sender : String) (funds : List Coin)
    (proposed : OpenInterest) :
    Except ContractError (VaultState × List VaultMsg) :=
  match s.open_interest with
  | none => .error .NoOpenInterest
  | some active =>
    match s.lender with
    | some _ => .error .LenderAlreadySet
    | none =>
      match validate_counter_offer active proposed with
      | .error e => .error e
      | .ok _ =>
        match validate_counter_offer_escrow funds proposed with
        | .error e => .error e
        | .ok _ =>
          match lookupBook s.counter_offers sender with
          | some _ => .error .CounterOfferAlreadyExists
          | none =>
            match determine_eviction_candidate s.counter_offers proposed with
            | .error e => .error e
            | .ok cand =>
              let book1 := match cand with
                | some (addr, _) => removeBook s.counter_offers addr
                | none => s.counter_offers
              let debtStep : Except ContractError (Option Coin) :=
                match cand with
                | some (_, offer) =>
                  release_outstanding_debt s.outstanding_debt offer.liquidity_coin
                | none => .ok s.outstanding_debt
              match debtStep with
              | .error e => .error e
              | .ok debt1 =>
                match add_outstanding_debt debt1 proposed.liquidity_coin with
                | .error e => .error e
                | .ok debt2 =>
                  let msgs := match cand with
                    | some (addr, offer) =>
                      [VaultMsg.BankSend addr [offer.liquidity_coin]]
                    | none => []
                  .ok ({ s with
                          counter_offers := insertBook sender proposed book1,
                          outstanding_debt := debt2 }, msgs)

/-- `cancel`: remove the caller's own entry, release its escrow from the
outstanding debt, and refund it in full. -/
def cancel (s : VaultState) (sender : String) :
    Except ContractError (VaultState × List VaultMsg) :=
  match s.open_interest with
  | none => .error .NoOpenInterest
  | some _ =>
    match lookupBook s.counter_offers sender with
    | none => .error (.CounterOfferNotFound sender)
    | some stored_offer =>
      match release_outstanding_debt s.outstanding_debt
          stored_offer.liquidity_coin with
      | .error e => .error e
      | .ok debt1 =>
        .ok ({ s with
                counter_offers := removeBook s.counter_offers sender,
                outstanding_debt := debt1 },
             [VaultMsg.BankSend sender [stored_offer.liquidity_coin]])

/-- `accept`: owner-only; the stored offer for the named proposer must equal
the expected payload; every other entry is refunded, the book cleared, the
lender bound, the accepted offer stored and the escrow debt dropped. -/
def accept (s : VaultState) (sender : String) (proposer : String)
    (expected_interest : OpenInterest) :
    Except ContractError (VaultState × List VaultMsg) :=
  if sender ≠ s.owner then .error .Unauthorized
  else
    match s.open_interest with
    | none => .error .NoOpenInterest
    | some _ =>
      match s.lender with
      | some _ => .error .LenderAlreadySet
      | none =>
        match lookupBook s.counter_offers proposer with
        | none => .error (.CounterOfferNotFound proposer)
        | some accepted_offer =>
          if accepted_offer ≠ expected_interest then
            .error (.CounterOfferMismatch proposer)
          else
            let refunds := (s.counter_offers.filter
                (fun e => e.1 ≠ proposer)).map
              (fun e => VaultMsg.BankSend e.1 [e.2.liquidity_coin])
            .ok ({ s with
                    counter_offers := [],
                    lender := some proposer,
                    open_interest := some accepted_offer,
                    outstanding_debt := none }, refunds)

/-! ## open_interest/helpers.rs -/

/-- `validate_coin`: nonzero amount and nonempty denom. -/
def validate_coin (coin : Coin) (field : String) : Except ContractError Unit :=
  if coin.amount = 0 then .error (.InvalidCoinAmount field)
  else if coin.denom = "" then .error (.InvalidCoinDenom field)
  else .ok ()

/-- `repayment_requirements`: per-denom totals of the liquidity and interest
coins, accumulated into a `BTreeMap` (iterated in ascending denom order) with
checked addition. -/
def repayment_requirements (oi : OpenInterest) :
    Except ContractError (List (String × Nat)) :=
  let l := oi.liquidity_coin
  let i := oi.interest_coin
  if i.denom = l.denom then
    if l.amount + i.amount < U256_BOUND then
      .ok [(l.denom, l.amount + i.amount)]
    else
      .error (.Std "repayment amount overflow")
  else if keyLt i.denom l.denom then
    .ok [(i.denom, i.amount), (l.denom, l.amount)]
  else
    .ok [(l.denom, l.amount), (i.denom, i.amount)]

/-- `build_repayment_amounts`: narrow each per-denom total to the `Uint128`
transfer type, failing loudly on truncation. -/
def build_repayment_amounts (oi : OpenInterest) :
    Except ContractError (List (String × Nat × Nat)) :=
  match repayment_requirements oi with
  | .error e => .error e
  | .ok reqs =>
    reqs.foldr
      (fun (dr : String × Nat)
          (acc : Except ContractError (List (String × Nat × Nat))) =>
        match acc with
        | .error e => .error e
        | .ok rest =>
          if dr.2 < U128_BOUND then .ok ((dr.1, dr.2, dr.2) :: rest)
          else .error (.RepaymentAmountOverflow dr.1 dr.2))
      (.ok [])

/-- `helpers::query_staked_balance`: total stake delegated in `denom`. -/
def query_staked_balance (env : EnvInfo) (denom : String) : Nat :=
  (env.delegations.filter (fun d => d.amount.denom = denom)).foldl
    (fun acc d => acc + d.amount.amount) 0

/-- `helpers::minimum_collateral_lock_for_denom`: how much of `denom` must
stay liquid after accounting for staking coverage. -/
def minimum_collateral_lock_for_denom (env : EnvInfo) (denom : String)
    (open_interest : Option OpenInterest) : Except ContractError Nat :=
  match open_interest with
  | none => .ok 0
  | some interest =>
    if interest.collateral.denom ≠ denom then .ok 0
    else if denom ≠ env.bondedDenom then .ok interest.collateral.amount
    else
      let rewards := env.totalRewards
      let staked := query_staked_balance env denom
      if rewards + staked < U256_BOUND then
        .ok (interest.collateral.amount - (rewards + staked))
      else
        .error (.Std "overflow")

/-- `ensure_collateral_available`: the vault balance must cover the
collateral, possibly counting staking rewards plus staked balance when the
collateral denom is the bonded denom. -/
def ensure_collateral_available (env : EnvInfo) (open_interest : OpenInterest) :
    Except ContractError Unit :=
  let denom := open_interest.collateral.denom
  let requested := open_interest.collateral.amount
  let available := env.balances denom
  if requested ≤ available then .ok ()
  else
    match minimum_collateral_lock_for_denom env denom (some open_interest) with
    | .error e => .error e
    | .ok required_lock =>
      if required_lock ≤ available then .ok ()
      else
        let staking_coverage := requested - required_lock
        if available + staking_coverage < U256_BOUND then
          if requested ≤ available + staking_coverage then .ok ()
          else .error (.InsufficientBalance denom
            (available + staking_coverage) requested)
        else
          .error (.Std "overflow")

/-- `validate_open_interest`: coin and duration validation, repayment
overflow pre-check, collateral availability. -/
def validate_open_interest (env : EnvInfo) (oi : OpenInterest) :
    Except ContractError Unit :=
  match validate_coin oi.liquidity_coin "liquidity_coin" with
  | .error e => .error e
  | .ok _ =>
    match validate_coin oi.interest_coin "interest_coin" with
    | .error e => .error e
    | .ok _ =>
      match validate_coin oi.collateral "collateral" with
      | .error e => .error e
      | .ok _ =>
        if oi.expiry_duration = 0 then .error .InvalidExpiryDuration
        else
          match build_repayment_amounts oi with
          | .error e => .error e
          | .ok _ => ensure_collateral_available env oi

/-- `validate_liquidity_funding`: attached funds in the liquidity denom must
equal the liquidity amount exactly. -/
def validate_liquidity_funding (funds : List Coin) (liquidity_coin : Coin) :
    Except ContractError Unit :=
  let received := fundsSum funds liquidity_coin.denom
  if received ≠ liquidity_coin.amount then
    .error (.OpenInterestFundingMismatch liquidity_coin.denom
      liquidity_coin.amount received)
  else .ok ()

/-- `refund_counter_offer_escrow`: refund every book entry in ascending
order, clear the book and drop the escrow debt. -/
def refund_counter_offer_escrow (s : VaultState) :
    VaultState × List VaultMsg :=
  ({ s with counter_offers := [], outstanding_debt := none },
   s.counter_offers.map (fun e => VaultMsg.BankSend e.1 [e.2.liquidity_coin]))

/-! ## open_interest/execute.rs, close.rs, fund.rs, repay.rs -/

/-- `open_interest::execute` (the `open` call): owner-only, single active
interest, full term validation, then store the terms and defensively clear
the book. -/
def open_interest_execute (s : VaultState) (sender : String) (env : EnvInfo)
    (oi : OpenInterest) :
    Except ContractError (VaultState × List VaultMsg) :=
  if sender ≠ s.owner then .error .Unauthorized
  else
    match s.open_interest with
    | some _ => .error .OpenInterestAlreadyExists
    | none =>
      match validate_open_interest env oi with
      | .error e => .error e
      | .ok _ =>
        .ok ({ s with open_interest := some oi, counter_offers := [] }, [])

/-- `close`: owner-only, no lender bound; clears the record and refunds the
whole book. -/
def close (s : VaultState) (sender : String) :
    Except ContractError (VaultState × List VaultMsg) :=
  if sender ≠ s.owner then .error .Unauthorized
  else
    match s.lender with
    | some _ => .error .LenderAlreadySet
    | none =>
      match s.open_interest with
      | none => .error .NoOpenInterest
      | some _ =>
        let (s1, refunds) :=
          refund_counter_offer_escrow { s with open_interest := none }
        .ok (s1, refunds)

/-- `set_active_lender`: bind the lender and stamp the expiry. -/
def set_active_lender (s : VaultState) (lender : String) (expiry : Nat) :
    VaultState :=
  { s with lender := some lender, open_interest_expiry := some expiry }

/-- `fund`: a direct lender matches the posted terms exactly, escrows the
liquidity, becomes the lender with a fresh expiry, and every counter offer
is refunded. -/
def fund (s : VaultState) (sender : String) (funds : List Coin)
    (env : EnvInfo) (expected_interest : OpenInterest) :
    Except ContractError (VaultState × List VaultMsg) :=
  match s.open_interest with
  | none => .error .NoOpenInterest
  | some open_interest =>
    match s.lender with
    | some _ => .error .LenderAlreadySet
    | none =>
      if open_interest ≠ expected_interest then .error .OpenInterestMismatch
      else
        match validate_liquidity_funding funds open_interest.liquidity_coin with
        | .error e => .error e
        | .ok _ =>
          let expiry := env.blockTime + open_interest.expiry_duration
          let s1 := set_active_lender s sender expiry
          let (s2, refunds) := refund_counter_offer_escrow s1
          .ok (s2, refunds)

/-- The balance-check-and-collect loop of `repay`: in order, each per-denom
total is checked against the vault's balance (failing on the first shortfall
as the source loop's early return does) and collected as a transfer coin. -/
def repay_balance_fold (env : EnvInfo)
    (repayment_amounts : List (String × Nat × Nat)) :
    Except ContractError (List Coin) :=
  repayment_amounts.foldr
    (fun (entry : String × Nat × Nat)
        (acc : Except ContractError (List Coin)) =>
      if env.balances entry.1 < entry.2.1 then
        .error (.InsufficientBalance entry.1
          (env.balances entry.1) entry.2.1)
      else
        match acc with
        | .error e => .error e
        | .ok coins => .ok (Coin.mk entry.1 entry.2.2 :: coins))
    (.ok [])

/-- `repay`: owner-only; any surviving outstanding debt blocks repayment;
the per-denom totals are checked against the vault balances and paid to the
lender in one batched transfer, then the position is cleared. -/
def repay (s : VaultState) (sender : String) (env : EnvInfo) :
    Except ContractError (VaultState × List VaultMsg) :=
  if sender ≠ s.owner then .error .Unauthorized
  else
    match s.outstanding_debt with
    | some debt => .error (.OutstandingDebt debt)
    | none =>
      match s.open_interest with
      | none => .error .NoOpenInterest
      | some open_interest =>
        match s.lender with
        | none => .error .NoLender
        | some lender =>
          match build_repayment_amounts open_interest with
          | .error e => .error e
          | .ok repayment_amounts =>
            match repay_balance_fold env repayment_amounts with
            | .error e => .error e
            | .ok repayment_coins =>
              .ok ({ s with
                      open_interest := none,
                      lender := none,
                      open_interest_expiry := none },
                   [VaultMsg.BankSend lender repayment_coins])

/-! ## open_interest/liquidate.rs -/

/-- `helpers::require_owner_or_lender`. -/
def require_owner_or_lender (s : VaultState) (sender : String) :
    Except ContractError Unit :=
  if sender = s.owner then .ok ()
  else
    match s.lender with
    | some lender_addr => if sender = lender_addr then .ok () else .error .Unauthorized
    | none => .error .Unauthorized

/-- `LiquidationContext`: the data loaded up-front by `liquidate`. -/
structure LiquidationContext where
  open_interest : OpenInterest
  lender : String
  denom : String
  bonded_denom : String
deriving DecidableEq, Repr

/-- `LiquidationContext::load`: authorization, presence of an open interest,
a bound lender and a stored expiry, and the expiry must have passed. -/
def load_liquidation_context (s : VaultState) (sender : String)
    (env : EnvInfo) : Except ContractError LiquidationContext :=
  match require_owner_or_lender s sender with
  | .error e => .error e
  | .ok _ =>
    match s.open_interest with
    | none => .error .NoOpenInterest
    | some open_interest =>
      match s.lender with
      | none => .error .NoLender
      | some lender =>
        match s.open_interest_expiry with
        | none =>
          .error (.Std "open interest expiry missing despite lender being set")
        | some expiry =>
          if env.blockTime < expiry then .error .OpenInterestNotExpired
          else
            .ok { open_interest := open_interest,
                  lender := lender,
                  denom := open_interest.collateral.denom,
                  bonded_denom := env.bondedDenom }

/-- `get_outstanding_amount`: the stored outstanding debt (whose denom must
match the collateral denom) or, on the first attempt, the full collateral. -/
def get_outstanding_amount (ctx : LiquidationContext) (s : VaultState) :
    Except ContractError Nat :=
  match s.outstanding_debt with
  | some debt =>
    if debt.denom ≠ ctx.denom then
      .error (.Std "Outstanding debt denom mismatch")
    else
      .ok debt.amount
  | none => .ok ctx.open_interest.collateral.amount

/-- `collect_funds`: the collateral-denom balance, topped up by claimable
rewards (with one withdrawal instruction per delegation) only when the denom
is bonded and the balance alone is short. -/
def collect_funds (ctx : LiquidationContext) (env : EnvInfo)
    (remaining : Nat) : Except ContractError (Nat × Nat × List VaultMsg) :=
  let balance := env.balances ctx.denom
  if ctx.denom = ctx.bonded_denom ∧ balance < remaining then
    let reward_amount := env.rewardsOf ctx.denom
    let reward_claim_messages :=
      if reward_amount = 0 then []
      else env.delegations.map
        (fun d => VaultMsg.WithdrawDelegatorReward d.validator)
    if balance + reward_amount < U256_BOUND then
      .ok (balance + reward_amount, reward_amount, reward_claim_messages)
    else
      .error (.Std "liquidation total available overflow")
  else
    .ok (balance, 0, [])

/-- `payout_message`: narrow the payout to `Uint128` and pay the lender. -/
def payout_message (ctx : LiquidationContext) (payout_amount : Nat) :
    Except ContractError VaultMsg :=
  if payout_amount < U128_BOUND then
    .ok (.BankSend ctx.lender [⟨ctx.denom, payout_amount⟩])
  else
    .error (.LiquidationAmountOverflow ctx.denom payout_amount)

/-- The loop of `schedule_undelegations`: take `min(remaining, stake)` from
each delegation in turn, skipping empty ones and stopping at zero. -/
def schedule_undelegations_loop (denom : String) (dels : List Delegation)
    (remaining_to_undelegate undelegated : Nat) (msgs : List VaultMsg) :
    Except ContractError (List VaultMsg × Nat) :=
  match dels with
  | [] => .ok (msgs, undelegated)
  | d :: rest =>
    if remaining_to_undelegate = 0 then .ok (msgs, undelegated)
    else if d.amount.amount = 0 then
      schedule_undelegations_loop denom rest remaining_to_undelegate
        undelegated msgs
    else
      let amount := min d.amount.amount remaining_to_undelegate
      if amount < U128_BOUND then
        schedule_undelegations_loop denom rest
          (remaining_to_undelegate - amount) (undelegated + amount)
          (msgs ++ [VaultMsg.Undelegate d.validator ⟨denom, amount⟩])
      else
        .error (.UndelegationAmountOverflow denom amount)

/-- `schedule_undelegations`: undelegate until the remaining amount is
fulfilled or delegations are exhausted. -/
def schedule_undelegations (ctx : LiquidationContext) (env : EnvInfo)
    (remaining : Nat) : Except ContractError (List VaultMsg × Nat) :=
  if remaining = 0 then .ok ([], 0)
  else schedule_undelegations_loop ctx.denom env.delegations remaining 0 []

/-- `finalize_state`: a zero remainder closes the loan entirely; a nonzero
remainder is persisted as the new outstanding debt. -/
def finalize_state (ctx : LiquidationContext) (s : VaultState)
    (remaining : Nat) : Except ContractError VaultState :=
  if remaining = 0 then
    .ok { s with
            outstanding_debt := none,
            open_interest := none,
            lender := none,
            open_interest_expiry := none }
  else if remaining < U128_BOUND then
    .ok { s with outstanding_debt := some ⟨ctx.denom, remaining⟩ }
  else
    .error (.RepaymentAmountOverflow ctx.denom remaining)

/-- `liquidate`: the full settlement pipeline, returning the new state and
the ordered instruction list (reward withdrawals, then the payment, then the
undelegations). -/
def liquidate (s : VaultState) (sender : String) (env : EnvInfo) :
    Except ContractError (VaultState × List VaultMsg) :=
  match load_liquidation_context s sender env with
  | .error e => .error e
  | .ok ctx =>
    match get_outstanding_amount ctx s with
    | .error e => .error e
    | .ok remaining =>
      match collect_funds ctx env remaining with
      | .error e => .error e
      | .ok (available, _rewards_claimed, reward_claim_messages) =>
        match (if min available remaining = 0 then Except.ok []
               else match payout_message ctx (min available remaining) with
                    | .error e => .error e
                    | .ok m => .ok [m]) with
        | .error e => .error e
        | .ok pay_msgs =>
          if remaining - min available remaining ≠ 0 ∧
              ctx.denom ≠ ctx.bonded_denom then
            .error (.InsufficientBalance ctx.denom available remaining)
          else
            match schedule_undelegations ctx env
                (remaining - min available remaining) with
            | .error e => .error e
            | .ok (undelegate_msgs, undelegated_amount) =>
              match finalize_state ctx s
                  (remaining - min available remaining -
                    undelegated_amount) with
              | .error e => .error e
              | .ok s1 =>
                .ok (s1, reward_claim_messages ++ pay_msgs ++ undelegate_msgs)

/-! ## Call traces over the counter-offer/open-interest lifecycle -/

/-- One external call of the lending lifecycle together with the caller, the
attached funds and the host environment it observes. -/
inductive OpCall where
  | OpenCall (sender : String) (env : EnvInfo) (terms : OpenInterest)
  | CloseCall (sender : String)
  | ProposeCall (sender : String) (funds : List Coin) (offer : OpenInterest)
  | CancelCall (sender : String)
  | AcceptCall (sender : String) (proposer : String) (expected : OpenInterest)
  | FundCall (sender : String) (funds : List Coin) (env : EnvInfo)
      (expected : OpenInterest)

/-- Dispatch one call against the state. -/
def stepOp (s : VaultState) :
    OpCall → Except ContractError (VaultState × List VaultMsg)
  | .OpenCall sender env terms => open_interest_execute s sender env terms
  | .CloseCall sender => close s sender
  | .ProposeCall sender funds offer => propose s sender funds offer
  | .CancelCall sender => cancel s sender
  | .AcceptCall sender proposer expected => accept s sender proposer expected
  | .FundCall sender funds env expected => fund s sender funds env expected

/-- Host semantics of one call: a failed call aborts atomically and leaves
the state unchanged. -/
def applyOp (s : VaultState) (c : OpCall) : VaultState :=
  match stepOp s c with
  | .ok (s', _) => s'
  | .error _ => s

/-- Run a sequence of calls from a state. -/
def runOps (s : VaultState) (cs : List OpCall) : VaultState :=
  cs.foldl applyOp s

/-- The state immediately after `instantiate`: every optional item `None`,
the book empty. -/
def initState (owner : String) : VaultState :=
  { owner := owner,
    lender := none,
    outstanding_debt := none,
    open_interest := none,
    open_interest_expiry := none,
    counter_offers := [] }

/-! ## Specification-level definitions

These definitions follow the wording of the specification's claims; the
theorems below relate them to the embedded source functions. -/

/-- The amount of an optional debt coin, zero when absent. -/
def debtAmount : Option Coin → Nat
  | none => 0
  | some d => d.amount

/-- Spec wording (escrow invariant): while no lender is bound, the
outstanding-debt amount equals the sum of all book entries' liquidity
amounts, and the debt is `None` exactly when the book is empty. -/
def EscrowBalanced (s : VaultState) : Prop :=
  debtAmount s.outstanding_debt = bookSum s.counter_offers ∧
    (s.outstanding_debt = none ↔ s.counter_offers = [])

/-- Every book entry escrows a strictly positive liquidity amount. -/
def entriesPositive (book : List (String × OpenInterest)) : Prop :=
  ∀ e ∈ book, 0 < e.2.liquidity_coin.amount

/-- The inductive invariant of the lifecycle state machine. -/
def VaultInv (s : VaultState) : Prop :=
  BookSorted s.counter_offers ∧
  entriesPositive s.counter_offers ∧
  s.counter_offers.length ≤ MAX_COUNTER_OFFERS ∧
  (s.open_interest = none →
    s.counter_offers = [] ∧ s.outstanding_debt = none) ∧
  (s.lender = none → EscrowBalanced s)

/-- The minimum liquidity amount among `w :: rest`. -/
def minAmtFrom (w : String × OpenInterest)
    (rest : List (String × OpenInterest)) : Nat :=
  rest.foldl (fun a e => min a e.2.liquidity_coin.amount)
    w.2.liquidity_coin.amount

/-- The minimum liquidity amount in the book (zero on an empty book). -/
def bookMinAmount : List (String × OpenInterest) → Nat
  | [] => 0
  | w :: rest => minAmtFrom w rest

/-- Spec wording (eviction tie-break): the first entry in ascending address
scan order whose liquidity amount attains the book minimum. -/
def firstMinEntry (book : List (String × OpenInterest)) :
    Option (String × OpenInterest) :=
  book.find? (fun e => e.2.liquidity_coin.amount = bookMinAmount book)

/-- Spec wording (liquidation step 1): amount owed is the stored outstanding
debt when present, else the full collateral amount. -/
def spec_amount_owed (debt : Option Coin) (collateral_amount : Nat) : Nat :=
  match debt with
  | some d => d.amount
  | none => collateral_amount

/-- Spec wording (liquidation step 2): the available figure is the balance,
increased by claimable rewards only when the collateral denom is the bonded
denom and the balance alone is below the amount owed. -/
def spec_available (denom bonded : String) (balance rewards owed : Nat) :
    Nat :=
  if denom = bonded ∧ balance < owed then balance + rewards else balance

/-- Spec wording (liquidation step 5): one undelegation of
`min(remaining, stake)` per delegation in order, skipping empty delegations
and stopping once remaining reaches zero; also returns the undelegated
total. -/
def spec_undelegations (denom : String) (dels : List Delegation)
    (remaining : Nat) : List VaultMsg × Nat :=
  match dels with
  | [] => ([], 0)
  | d :: rest =>
    if remaining = 0 then ([], 0)
    else
      let amt := min d.amount.amount remaining
      if amt = 0 then spec_undelegations denom rest remaining
      else
        let r := spec_undelegations denom rest (remaining - amt)
        (VaultMsg.Undelegate d.validator ⟨denom, amt⟩ :: r.1, amt + r.2)

/-- Spec wording (liquidation step 6, zero remainder): `OutstandingDebt`,
`OpenInterest`, `Lender` and `Expiry` are all cleared. -/
def clearedPosition (s : VaultState) : VaultState :=
  { s with
      outstanding_debt := none,
      open_interest := none,
      lender := none,
      open_interest_expiry := none }


/-- Spec wording (liquidation step 6, nonzero remainder): the settled
remainder is persisted as the new outstanding debt in the collateral
denom. -/
def carriedDebt (s : VaultState) (denom : String) (settled : Nat) :
    VaultState :=
  { s with outstanding_debt := some ⟨denom, settled⟩ }

/-- Spec wording (repayment): the total owed per denom, merging the
liquidity and the interest coin when they share a denom, listed in
ascending denom order. -/
def spec_repay_totals (oi : OpenInterest) : List (String × Nat) :=
  let l := oi.liquidity_coin
  let i := oi.interest_coin
  if i.denom = l.denom then [(l.denom, l.amount + i.amount)]
  else if keyLt i.denom l.denom then [(i.denom, i.amount), (l.denom, l.amount)]
  else [(l.denom, l.amount), (i.denom, i.amount)]

/-- Is this instruction a reward withdrawal? -/
def isRewardMsg : VaultMsg → Bool
  | .WithdrawDelegatorReward _ => true
  | _ => false

/-- Is this instruction a bank payment? -/
def isPaymentMsg : VaultMsg → Bool
  | .BankSend _ _ => true
  | _ => false

/-- Is this instruction an undelegation? -/
def isUndelegateMsg : VaultMsg → Bool
  | .Undelegate _ _ => true
  | _ => false

/-! ## Concrete scenario data -/

/-- Three-digit zero-padded decimal key, so numeric order is string order. -/
def pad3 (n : Nat) : String :=
  String.mk [Char.ofNat (48 + n / 100), Char.ofNat (48 + n / 10 % 10),
    Char.ofNat (48 + n % 10)]

/-- Scenario terms: liquidity 1000 uusd, interest 50 ujuno, expiry one day,
collateral 2000 uatom. -/
def demoTerms : OpenInterest :=
  ⟨⟨"uusd", 1000⟩, ⟨"ujuno", 50⟩, 86400, ⟨"uatom", 2000⟩⟩

/-- A counter offer on `demoTerms` at the given liquidity amount. -/
def offerAt (amt : Nat) : OpenInterest :=
  ⟨⟨"uusd", amt⟩, ⟨"ujuno", 50⟩, 86400, ⟨"uatom", 2000⟩⟩

/-- A quiet host environment holding 2000 uatom. -/
def demoEnvA : EnvInfo :=
  { blockTime := 0,
    balances := fun d => if d = "uatom" then 2000 else 0,
    bondedDenom := "ucosm",
    totalRewards := 0,
    rewardsOf := fun _ => 0,
    delegations := [] }

/-- Open the demo terms, then propose a 950 uusd counter offer. -/
def demoOps : List OpCall :=
  [.OpenCall "owner" demoEnvA demoTerms,
   .ProposeCall "lenderx" [⟨"uusd", 950⟩] (offerAt 950)]

/-- A book at full capacity: entries `"000" .. "254"` with amounts
`100 .. 354`. -/
def book255 : List (String × OpenInterest) :=
  (List.range 255).map (fun i => (pad3 i, offerAt (100 + i)))

/-- A state holding `book255` under `demoTerms` with balanced escrow. -/
def c2State : VaultState :=
  { owner := "owner",
    lender := none,
    outstanding_debt := some ⟨"uusd", bookSum book255⟩,
    open_interest := some demoTerms,
    open_interest_expiry := none,
    counter_offers := book255 }

/-- Escrow phase with two live counter offers from alice and bob. -/
def c3State : VaultState :=
  { owner := "owner",
    lender := none,
    outstanding_debt := some ⟨"uusd", 1850⟩,
    open_interest := some demoTerms,
    open_interest_expiry := none,
    counter_offers := [("alice", offerAt 900), ("bob", offerAt 950)] }

/-- An environment far past any expiry. -/
def lateEnv : EnvInfo :=
  { blockTime := 1000000000,
    balances := fun _ => 0,
    bondedDenom := "ucosm",
    totalRewards := 0,
    rewardsOf := fun _ => 0,
    delegations := [] }

/-- A funded position: lender bound, expiry stamped, bonded collateral. -/
def c5State : VaultState :=
  { owner := "owner",
    lender := some "lend",
    outstanding_debt := none,
    open_interest := some ⟨⟨"uusd", 1000⟩, ⟨"ujuno", 50⟩, 86400, ⟨"ucosm", 25⟩⟩,
    open_interest_expiry := some 100,
    counter_offers := [] }

/-- Past expiry: 10 ucosm liquid, 5 ucosm claimable, stakes of 7 and 100. -/
def c5Env : EnvInfo :=
  { blockTime := 100,
    balances := fun d => if d = "ucosm" then 10 else 0,
    bondedDenom := "ucosm",
    totalRewards := 5,
    rewardsOf := fun d => if d = "ucosm" then 5 else 0,
    delegations := [⟨"val1", ⟨"ucosm", 7⟩⟩, ⟨"val2", ⟨"ucosm", 100⟩⟩] }

/-- A funded position ready for repayment (uusd liquidity, ujuno interest). -/
def c6State : VaultState :=
  { owner := "owner",
    lender := some "lend",
    outstanding_debt := none,
    open_interest := some demoTerms,
    open_interest_expiry := some 86400,
    counter_offers := [] }

/-- Balances covering the repayment totals of `demoTerms`. -/
def c6Env : EnvInfo :=
  { blockTime := 90000,
    balances := fun d => if d = "uusd" then 1000 else if d = "ujuno" then 50 else 0,
    bondedDenom := "ucosm",
    totalRewards := 0,
    rewardsOf := fun _ => 0,
    delegations := [] }

/-- A funded, expired position whose bonded-denom resources are all empty. -/
def c10State : VaultState :=
  { owner := "owner",
    lender := some "lend",
    outstanding_debt := none,
    open_interest := some ⟨⟨"uusd", 1000⟩, ⟨"ujuno", 50⟩, 86400, ⟨"ucosm", 400⟩⟩,
    open_interest_expiry := some 100,
    counter_offers := [] }

/-- Bonded denom ucosm with zero balance, zero rewards, zero stake. -/
def c10Env : EnvInfo :=
  { blockTime := 200,
    balances := fun _ => 0,
    bondedDenom := "ucosm",
    totalRewards := 0,
    rewardsOf := fun _ => 0,
    delegations := [⟨"val1", ⟨"ucosm", 0⟩⟩] }

/-- The worst-entry scan without the counter: keeps the first entry (in scan
order) attaining the minimum liquidity amount. -/
def firstMinCons (w : String × OpenInterest) :
    List (String × OpenInterest) → String × OpenInterest
  | [] => w
  | e :: rest =>
    if e.2.liquidity_coin.amount < w.2.liquidity_coin.amount then
      firstMinCons e rest
    else
      firstMinCons w rest

/-! ## Lemmas about the sorted book -/

theorem charsLtB_irrefl (l : List Char) : charsLtB l l = false := by
  induction l with
  | nil => rfl
  | cons a as ih => simp [charsLtB, ih]

theorem keyLt_irrefl (a : String) : keyLt a a = false :=
  charsLtB_irrefl a.data

theorem charsLtB_trans {a b c : List Char} (hab : charsLtB a b = true)
    (hbc : charsLtB b c = true) : charsLtB a c = true := by
  induction a generalizing b c with
  | nil =>
    cases c with
    | nil =>
      cases b with
      | nil => exact absurd hab (by simp [charsLtB])
      | cons y ys => exact absurd hbc (by simp [charsLtB])
    | cons z zs => simp [charsLtB]
  | cons x xs ih =>
    cases b with
    | nil => exact absurd hab (by simp [charsLtB])
    | cons y ys =>
      cases c with
      | nil => exact absurd hbc (by simp [charsLtB])
      | cons z zs =>
        simp only [charsLtB] at hab hbc ⊢
        by_cases hxy : x.toNat < y.toNat
        · by_cases hyz : y.toNat < z.toNat
          · rw [if_pos (by omega)]
          · rw [if_neg hyz] at hbc
            by_cases hzy : z.toNat < y.toNat
            · rw [if_pos hzy] at hbc
              exact absurd hbc (by simp)
            · rw [if_pos (by omega)]
        · rw [if_neg hxy] at hab
          by_cases hyx : y.toNat < x.toNat
          · rw [if_pos hyx] at hab
            exact absurd hab (by simp)
          · rw [if_neg hyx] at hab
            by_cases hyz : y.toNat < z.toNat
            · rw [if_pos (by omega)]
            · rw [if_neg hyz] at hbc
              by_cases hzy : z.toNat < y.toNat
              · rw [if_pos hzy] at hbc
                exact absurd hbc (by simp)
              · rw [if_neg hzy] at hbc
                rw [if_neg (by omega), if_neg (by omega)]
                exact ih hab hbc

theorem keyLt_trans {a b c : String} (hab : keyLt a b = true)
    (hbc : keyLt b c = true) : keyLt a c = true :=
  charsLtB_trans hab hbc

theorem charsLtB_connex {a b : List Char} (h : a ≠ b) :
    charsLtB a b = true ∨ charsLtB b a = true := by
  induction a generalizing b with
  | nil =>
    cases b with
    | nil => exact absurd rfl h
    | cons y ys => exact Or.inl (by simp [charsLtB])
  | cons x xs ih =>
    cases b with
    | nil => exact Or.inr (by simp [charsLtB])
    | cons y ys =>
      by_cases hxy : x.toNat < y.toNat
      · exact Or.inl (by simp [charsLtB, hxy])
      · by_cases hyx : y.toNat < x.toNat
        · exact Or.inr (by simp [charsLtB, hyx])
        · have hn : x.toNat = y.toNat := by omega
          have hc : x = y := Char.ext (UInt32.ext hn)
          subst hc
          have hne : xs ≠ ys := by
            intro hxs
            exact h (by rw [hxs])
          rcases ih hne with h1 | h1
          · exact Or.inl (by simp [charsLtB, hxy, hyx, h1])
          · exact Or.inr (by simp [charsLtB, hxy, hyx, h1])

theorem keyLt_connex {a b : String} (h : a ≠ b) :
    keyLt a b = true ∨ keyLt b a = true := by
  refine charsLtB_connex ?_
  intro hd
  exact h (String.ext hd)

theorem bookSortedB_tail {a : String × OpenInterest}
    {rest : List (String × OpenInterest)}
    (h : bookSortedB (a :: rest) = true) : bookSortedB rest = true := by
  cases rest with
  | nil => rfl
  | cons b t =>
    simp only [bookSortedB, Bool.and_eq_true] at h
    exact h.2

theorem bookSortedB_head {a : String × OpenInterest}
    {rest : List (String × OpenInterest)}
    (h : bookSortedB (a :: rest) = true) :
    ∀ x ∈ rest, keyLt a.1 x.1 = true := by
  induction rest generalizing a with
  | nil => simp
  | cons b t ih =>
    simp only [bookSortedB, Bool.and_eq_true] at h
    obtain ⟨hab, hbt⟩ := h
    intro x hx
    rcases List.mem_cons.mp hx with hxb | hxt
    · rw [hxb]
      exact hab
    · exact keyLt_trans hab (ih hbt x hxt)

theorem bookSorted_of_B {book : List (String × OpenInterest)}
    (h : bookSortedB book = true) : BookSorted book := by
  induction book with
  | nil => exact List.Pairwise.nil
  | cons a rest ih =>
    exact List.pairwise_cons.mpr
      ⟨bookSortedB_head h, ih (bookSortedB_tail h)⟩

theorem lookupBook_none_iff (book : List (String × OpenInterest))
    (k : String) : lookupBook book k = none ↔ ∀ e ∈ book, e.1 ≠ k := by
  induction book with
  | nil => simp [lookupBook]
  | cons e rest ih =>
    obtain ⟨k', v⟩ := e
    by_cases hk : k' = k
    · simp [lookupBook, hk]
    · simp [lookupBook, hk, ih]

theorem lookupBook_some_mem {book : List (String × OpenInterest)}
    {k : String} {v : OpenInterest} (h : lookupBook book k = some v) :
    (k, v) ∈ book := by
  induction book with
  | nil => simp [lookupBook] at h
  | cons e rest ih =>
    obtain ⟨k', v'⟩ := e
    by_cases hk : k' = k
    · subst hk
      simp [lookupBook] at h
      subst h
      exact List.mem_cons_self _ _
    · simp [lookupBook, hk] at h
      exact List.mem_cons_of_mem _ (ih h)

theorem bookSum_insert {book : List (String × OpenInterest)} {k : String}
    (v : OpenInterest) (h : lookupBook book k = none) :
    bookSum (insertBook k v book) =
      v.liquidity_coin.amount + bookSum book := by
  induction book with
  | nil => simp [insertBook, bookSum]
  | cons e rest ih =>
    obtain ⟨k', v'⟩ := e
    have hk : ¬ k' = k := by
      intro hkk
      simp [lookupBook, hkk] at h
    have hrest : lookupBook rest k = none := by
      simpa [lookupBook, hk] using h
    by_cases h1 : keyLt k k' = true
    · simp [insertBook, h1, bookSum]
    · have h2 : ¬ k = k' := fun hkk => hk hkk.symm
      simp only [insertBook, if_neg h1, if_neg h2, bookSum]
      rw [ih hrest]
      omega

theorem length_insert {book : List (String × OpenInterest)} {k : String}
    (v : OpenInterest) (h : lookupBook book k = none) :
    (insertBook k v book).length = book.length + 1 := by
  induction book with
  | nil => simp [insertBook]
  | cons e rest ih =>
    obtain ⟨k', v'⟩ := e
    have hk : ¬ k' = k := by
      intro hkk
      simp [lookupBook, hkk] at h
    have hrest : lookupBook rest k = none := by
      simpa [lookupBook, hk] using h
    by_cases h1 : keyLt k k' = true
    · simp [insertBook, h1]
    · have h2 : ¬ k = k' := fun hkk => hk hkk.symm
      simp only [insertBook, if_neg h1, if_neg h2, List.length_cons]
      rw [ih hrest]

theorem insertBook_ne_nil (k : String) (v : OpenInterest)
    (book : List (String × OpenInterest)) : insertBook k v book ≠ [] := by
  cases book with
  | nil => simp [insertBook]
  | cons e rest =>
    obtain ⟨k', v'⟩ := e
    by_cases h1 : keyLt k k' = true
    · simp [insertBook, h1]
    · by_cases h2 : k = k' <;> simp [insertBook, h1, h2, keyLt_irrefl]

theorem removeBook_cons (e : String × OpenInterest)
    (rest : List (String × OpenInterest)) (k : String) :
    removeBook (e :: rest) k =
      if e.1 = k then removeBook rest k else e :: removeBook rest k := by
  by_cases h : e.1 = k <;> simp [removeBook, List.filter_cons, h]

theorem removeBook_of_not_mem {book : List (String × OpenInterest)}
    {k : String} (h : ∀ e ∈ book, e.1 ≠ k) : removeBook book k = book := by
  induction book with
  | nil => rfl
  | cons e rest ih =>
    have he : e.1 ≠ k := h e (List.mem_cons_self _ _)
    have hrest : ∀ x ∈ rest, x.1 ≠ k :=
      fun x hx => h x (List.mem_cons_of_mem _ hx)
    rw [removeBook_cons, if_neg he, ih hrest]

theorem removeBook_mem_sorted {book : List (String × OpenInterest)}
    {k : String} {v : OpenInterest} (hs : BookSorted book)
    (hmem : (k, v) ∈ book) :
    bookSum book = v.liquidity_coin.amount + bookSum (removeBook book k) ∧
      book.length = (removeBook book k).length + 1 := by
  induction book with
  | nil => simp at hmem
  | cons e rest ih =>
    have hs' : BookSorted rest := (List.pairwise_cons.mp hs).2
    have hlt : ∀ x ∈ rest, keyLt e.1 x.1 = true := (List.pairwise_cons.mp hs).1
    rcases List.mem_cons.mp hmem with hhead | htail
    · have hk : e.1 = k := (congrArg Prod.fst hhead).symm
      have hv : e.2 = v := (congrArg Prod.snd hhead).symm
      have hrest : ∀ x ∈ rest, x.1 ≠ k := by
        intro x hx hxk
        have h1 := hlt x hx
        rw [hk, hxk, keyLt_irrefl] at h1
        exact Bool.false_ne_true h1
      rw [removeBook_cons, if_pos hk, removeBook_of_not_mem hrest]
      constructor
      · show e.2.liquidity_coin.amount + bookSum rest = _
        rw [hv]
      · simp
    · have hek : e.1 ≠ k := by
        intro hxk
        have h1 := hlt _ htail
        simp only at h1
        rw [hxk, keyLt_irrefl] at h1
        exact Bool.false_ne_true h1
      obtain ⟨ihsum, ihlen⟩ := ih hs' htail
      rw [removeBook_cons, if_neg hek]
      constructor
      · show e.2.liquidity_coin.amount + bookSum rest =
          v.liquidity_coin.amount +
            (e.2.liquidity_coin.amount + bookSum (removeBook rest k))
        omega
      · simp [ihlen]

theorem lookup_removeBook_none {book : List (String × OpenInterest)}
    {k k' : String} (h : lookupBook book k' = none) :
    lookupBook (removeBook book k) k' = none := by
  rw [lookupBook_none_iff] at h ⊢
  intro e he
  exact h e (List.mem_of_mem_filter he)

theorem mem_insertBook {book : List (String × OpenInterest)} {k : String}
    {v : OpenInterest} {x : String × OpenInterest}
    (h : x ∈ insertBook k v book) : x = (k, v) ∨ x ∈ book := by
  induction book with
  | nil => simpa [insertBook] using h
  | cons e rest ih =>
    by_cases h1 : keyLt k e.1 = true
    · simp only [insertBook, if_pos h1] at h
      rcases List.mem_cons.mp h with hx | hx
      · exact Or.inl hx
      · exact Or.inr hx
    · by_cases h2 : k = e.1
      · simp only [insertBook, if_neg h1, if_pos h2] at h
        rcases List.mem_cons.mp h with hx | hx
        · exact Or.inl hx
        · exact Or.inr (List.mem_cons_of_mem _ hx)
      · simp only [insertBook, if_neg h1, if_neg h2] at h
        rcases List.mem_cons.mp h with hx | hx
        · exact Or.inr (hx ▸ List.mem_cons_self _ _)
        · rcases ih hx with hx' | hx'
          · exact Or.inl hx'
          · exact Or.inr (List.mem_cons_of_mem _ hx')

theorem sorted_insertBook {book : List (String × OpenInterest)} {k : String}
    (v : OpenInterest) (hs : BookSorted book) :
    BookSorted (insertBook k v book) := by
  induction book with
  | nil => simp [insertBook, BookSorted]
  | cons e rest ih =>
    have hs' : BookSorted rest := (List.pairwise_cons.mp hs).2
    have hlt : ∀ x ∈ rest, keyLt e.1 x.1 = true := (List.pairwise_cons.mp hs).1
    unfold BookSorted at *
    by_cases h1 : keyLt k e.1 = true
    · simp only [insertBook, if_pos h1]
      refine List.pairwise_cons.mpr ⟨?_, hs⟩
      intro x hx
      rcases List.mem_cons.mp hx with hxe | hxr
      · rw [hxe]; exact h1
      · exact keyLt_trans h1 (hlt x hxr)
    · by_cases h2 : k = e.1
      · simp only [insertBook, if_neg h1, if_pos h2]
        refine List.pairwise_cons.mpr ⟨?_, hs'⟩
        intro x hx
        rw [h2]
        exact hlt x hx
      · simp only [insertBook, if_neg h1, if_neg h2]
        refine List.pairwise_cons.mpr ⟨?_, ih hs'⟩
        intro x hx
        rcases mem_insertBook hx with hx' | hx'
        · rw [hx']
          rcases keyLt_connex h2 with hc | hc
          · exact absurd hc h1
          · exact hc
        · exact hlt x hx'

theorem sorted_removeBook {book : List (String × OpenInterest)} (k : String)
    (hs : BookSorted book) : BookSorted (removeBook book k) :=
  List.Pairwise.sublist (List.filter_sublist book) hs

theorem positive_insertBook {book : List (String × OpenInterest)}
    {k : String} {v : OpenInterest} (hb : entriesPositive book)
    (hv : 0 < v.liquidity_coin.amount) :
    entriesPositive (insertBook k v book) := by
  intro x hx
  rcases mem_insertBook hx with hx' | hx'
  · rw [hx']; exact hv
  · exact hb x hx'

theorem positive_removeBook {book : List (String × OpenInterest)}
    (k : String) (hb : entriesPositive book) :
    entriesPositive (removeBook book k) :=
  fun x hx => hb x (List.mem_of_mem_filter hx)

theorem bookSum_eq_zero_iff {book : List (String × OpenInterest)}
    (hb : entriesPositive book) : bookSum book = 0 ↔ book = [] := by
  cases book with
  | nil => simp [bookSum]
  | cons e rest =>
    have : 0 < e.2.liquidity_coin.amount := hb e (List.mem_cons_self _ _)
    simp only [bookSum]
    constructor
    · intro h
      omega
    · intro h
      exact absurd h (List.cons_ne_nil _ _)

/-! ## Lemmas about the worst-entry scan -/

theorem scanWorst_eq (rest : List (String × OpenInterest))
    (w : String × OpenInterest) (c : Nat) :
    scanWorst w c rest = (c + rest.length, firstMinCons w rest) := by
  induction rest generalizing w c with
  | nil => simp [scanWorst, firstMinCons]
  | cons e tail ih =>
    by_cases h : e.2.liquidity_coin.amount < w.2.liquidity_coin.amount
    · simp only [scanWorst, firstMinCons, if_pos h, ih, List.length_cons]
      rw [Prod.mk.injEq]
      exact ⟨by omega, rfl⟩
    · simp only [scanWorst, firstMinCons, if_neg h, ih, List.length_cons]
      rw [Prod.mk.injEq]
      exact ⟨by omega, rfl⟩

theorem minAmtFrom_cons (w e : String × OpenInterest)
    (rest : List (String × OpenInterest)) :
    minAmtFrom w (e :: rest) =
      if e.2.liquidity_coin.amount < w.2.liquidity_coin.amount then
        minAmtFrom e rest
      else minAmtFrom w rest := by
  by_cases h : e.2.liquidity_coin.amount < w.2.liquidity_coin.amount
  · simp only [minAmtFrom, List.foldl_cons, if_pos h]
    congr 1
    omega
  · simp only [minAmtFrom, List.foldl_cons, if_neg h]
    congr 1
    omega

theorem firstMinCons_amount (rest : List (String × OpenInterest))
    (w : String × OpenInterest) :
    (firstMinCons w rest).2.liquidity_coin.amount = minAmtFrom w rest := by
  induction rest generalizing w with
  | nil => simp [firstMinCons, minAmtFrom]
  | cons e tail ih =>
    rw [minAmtFrom_cons]
    by_cases h : e.2.liquidity_coin.amount < w.2.liquidity_coin.amount
    · simp only [firstMinCons, if_pos h, ih]
    · simp only [firstMinCons, if_neg h, ih]

theorem firstMinCons_mem (rest : List (String × OpenInterest))
    (w : String × OpenInterest) : firstMinCons w rest ∈ w :: rest := by
  induction rest generalizing w with
  | nil => simp [firstMinCons]
  | cons e tail ih =>
    by_cases h : e.2.liquidity_coin.amount < w.2.liquidity_coin.amount
    · simp only [firstMinCons, if_pos h]
      rcases List.mem_cons.mp (ih e) with hx | hx
      · rw [hx]
        exact List.mem_cons_of_mem _ (List.mem_cons_self _ _)
      · exact List.mem_cons_of_mem _ (List.mem_cons_of_mem _ hx)
    · simp only [firstMinCons, if_neg h]
      rcases List.mem_cons.mp (ih w) with hx | hx
      · rw [hx]
        exact List.mem_cons_self _ _
      · exact List.mem_cons_of_mem _ (List.mem_cons_of_mem _ hx)

theorem minAmtFrom_le (rest : List (String × OpenInterest))
    (w : String × OpenInterest) :
    minAmtFrom w rest ≤ w.2.liquidity_coin.amount := by
  induction rest generalizing w with
  | nil => simp [minAmtFrom]
  | cons e tail ih =>
    rw [minAmtFrom_cons]
    by_cases h : e.2.liquidity_coin.amount < w.2.liquidity_coin.amount
    · rw [if_pos h]
      exact le_of_lt (lt_of_le_of_lt (ih e) h)
    · rw [if_neg h]
      exact ih w

theorem firstMinCons_self (rest : List (String × OpenInterest))
    (w : String × OpenInterest)
    (h : minAmtFrom w rest = w.2.liquidity_coin.amount) :
    firstMinCons w rest = w := by
  induction rest generalizing w with
  | nil => simp [firstMinCons]
  | cons e tail ih =>
    rw [minAmtFrom_cons] at h
    by_cases he : e.2.liquidity_coin.amount < w.2.liquidity_coin.amount
    · rw [if_pos he] at h
      have := minAmtFrom_le tail e
      omega
    · rw [if_neg he] at h
      simp only [firstMinCons, if_neg he]
      exact ih w h

theorem firstMinEntry_cons (rest : List (String × OpenInterest))
    (w : String × OpenInterest) :
    firstMinEntry (w :: rest) = some (firstMinCons w rest) := by
  induction rest generalizing w with
  | nil => simp [firstMinEntry, firstMinCons, bookMinAmount, minAmtFrom]
  | cons e tail ih =>
    by_cases he : e.2.liquidity_coin.amount < w.2.liquidity_coin.amount
    · have hM : bookMinAmount (w :: e :: tail) = minAmtFrom e tail := by
        simp only [bookMinAmount, minAmtFrom_cons, if_pos he]
      have hw : ¬ (w.2.liquidity_coin.amount = bookMinAmount (w :: e :: tail)) := by
        rw [hM]
        have := minAmtFrom_le tail e
        omega
      have step : firstMinEntry (w :: e :: tail) = firstMinEntry (e :: tail) := by
        simp only [firstMinEntry, List.find?_cons]
        rw [hM]
        simp only [bookMinAmount]
        rw [decide_eq_false (by rw [hM] at hw; exact hw)]
      rw [step, ih e]
      simp only [firstMinCons, if_pos he]
    · have hM : bookMinAmount (w :: e :: tail) = minAmtFrom w tail := by
        simp only [bookMinAmount, minAmtFrom_cons, if_neg he]
      simp only [firstMinCons, if_neg he]
      by_cases hw : w.2.liquidity_coin.amount = bookMinAmount (w :: e :: tail)
      · have hfix : firstMinCons w tail = w := by
          apply firstMinCons_self
          rw [hM] at hw
          exact hw.symm ▸ rfl
        rw [hfix]
        simp only [firstMinEntry, List.find?_cons, decide_eq_true hw]
      · have hlt : bookMinAmount (w :: e :: tail) < w.2.liquidity_coin.amount := by
          rw [hM]
          have := minAmtFrom_le tail w
          rw [hM] at hw
          omega
        have hne : ¬ (e.2.liquidity_coin.amount = bookMinAmount (w :: e :: tail)) := by
          have hle : w.2.liquidity_coin.amount ≤ e.2.liquidity_coin.amount :=
            not_lt.mp he
          omega
        have hfromih := ih w
        simp only [firstMinEntry, List.find?_cons] at hfromih ⊢
        rw [decide_eq_false hw, decide_eq_false hne]
        have hMw : bookMinAmount (w :: tail) = minAmtFrom w tail := rfl
        rw [hMw] at hfromih
        have hw' : ¬ (w.2.liquidity_coin.amount = minAmtFrom w tail) := by
          rw [hM] at hw
          exact hw
        rw [decide_eq_false hw'] at hfromih
        rw [hM]
        exact hfromih

theorem propose_ok_inv {s : VaultState} {sender : String} {funds : List Coin}
    {proposed : OpenInterest} {s' : VaultState} {msgs : List VaultMsg}
    (h : propose s sender funds proposed = .ok (s', msgs)) :
    ∃ active, s.open_interest = some active ∧ s.lender = none ∧
      validate_counter_offer active proposed = .ok () ∧
      validate_counter_offer_escrow funds proposed = .ok () ∧
      lookupBook s.counter_offers sender = none ∧
      ((determine_eviction_candidate s.counter_offers proposed = .ok none ∧
        ∃ debt2,
          add_outstanding_debt s.outstanding_debt proposed.liquidity_coin
            = .ok debt2 ∧
          s' = { s with
                  counter_offers :=
                    insertBook sender proposed s.counter_offers,
                  outstanding_debt := debt2 } ∧
          msgs = []) ∨
       (∃ waddr woffer debt1 debt2,
          determine_eviction_candidate s.counter_offers proposed
            = .ok (some (waddr, woffer)) ∧
          release_outstanding_debt s.outstanding_debt woffer.liquidity_coin
            = .ok debt1 ∧
          add_outstanding_debt debt1 proposed.liquidity_coin = .ok debt2 ∧
          s' = { s with
                  counter_offers :=
                    insertBook sender proposed
                      (removeBook s.counter_offers waddr),
                  outstanding_debt := debt2 } ∧
          msgs = [VaultMsg.BankSend waddr [woffer.liquidity_coin]])) := by
  unfold propose at h
  split at h
  · exact absurd h (by simp)
  · rename_i active hoi
    split at h
    · exact absurd h (by simp)
    · rename_i hlender
      split at h
      · exact absurd h (by simp)
      · rename_i u hval
        split at h
        · exact absurd h (by simp)
        · rename_i u2 hesc
          split at h
          · exact absurd h (by simp)
          · rename_i hdup
            split at h
            · exact absurd h (by simp)
            · rename_i cand hcand
              cases cand with
              | none =>
                simp only at h
                split at h
                · exact absurd h (by simp)
                · rename_i debt2 hadd
                  refine ⟨active, hoi, hlender, ?_, ?_, hdup, ?_⟩
                  · cases u; exact hval
                  · cases u2; exact hesc
                  injection h with h1
                  injection h1 with hst hmsgs
                  exact Or.inl ⟨hcand, debt2, hadd, hst.symm, hmsgs.symm⟩
              | some we =>
                obtain ⟨waddr, woffer⟩ := we
                simp only at h
                split at h
                · exact absurd h (by simp)
                · rename_i debt1 hrel
                  split at h
                  · exact absurd h (by simp)
                  · rename_i debt2 hadd
                    refine ⟨active, hoi, hlender, ?_, ?_, hdup, ?_⟩
                    · cases u; exact hval
                    · cases u2; exact hesc
                    injection h with h1
                    injection h1 with hst hmsgs
                    exact Or.inr ⟨waddr, woffer, debt1, debt2, hcand, hrel,
                      hadd, hst.symm, hmsgs.symm⟩

theorem cancel_ok_inv {s : VaultState} {sender : String} {s' : VaultState}
    {msgs : List VaultMsg} (h : cancel s sender = .ok (s', msgs)) :
    ∃ active stored_offer debt1, s.open_interest = some active ∧
      lookupBook s.counter_offers sender = some stored_offer ∧
      release_outstanding_debt s.outstanding_debt stored_offer.liquidity_coin
        = .ok debt1 ∧
      s' = { s with
              counter_offers := removeBook s.counter_offers sender,
              outstanding_debt := debt1 } ∧
      msgs = [VaultMsg.BankSend sender [stored_offer.liquidity_coin]] := by
  unfold cancel at h
  split at h
  · exact absurd h (by simp)
  · rename_i active hoi
    split at h
    · exact absurd h (by simp)
    · rename_i stored_offer hst
      split at h
      · exact absurd h (by simp)
      · rename_i debt1 hrel
        injection h with h1
        injection h1 with hst' hmsgs
        exact ⟨active, stored_offer, debt1, hoi, hst, hrel, hst'.symm,
          hmsgs.symm⟩

theorem accept_ok_inv {s : VaultState} {sender proposer : String}
    {expected : OpenInterest} {s' : VaultState} {msgs : List VaultMsg}
    (h : accept s sender proposer expected = .ok (s', msgs)) :
    ∃ active accepted_offer, sender = s.owner ∧
      s.open_interest = some active ∧ s.lender = none ∧
      lookupBook s.counter_offers proposer = some accepted_offer ∧
      accepted_offer = expected ∧
      s' = { s with
              counter_offers := [],
              lender := some proposer,
              open_interest := some accepted_offer,
              outstanding_debt := none } ∧
      msgs = (s.counter_offers.filter (fun e => e.1 ≠ proposer)).map
        (fun e => VaultMsg.BankSend e.1 [e.2.liquidity_coin]) := by
  unfold accept at h
  split at h
  · exact absurd h (by simp)
  · rename_i howner
    split at h
    · exact absurd h (by simp)
    · rename_i active hoi
      split at h
      · exact absurd h (by simp)
      · rename_i hlender
        split at h
        · exact absurd h (by simp)
        · rename_i accepted_offer hst
          split at h
          · exact absurd h (by simp)
          · rename_i hexp
            injection h with h1
            injection h1 with hst' hmsgs
            exact ⟨active, accepted_offer, not_ne_iff.mp howner, hoi,
              hlender, hst, not_ne_iff.mp hexp, hst'.symm, hmsgs.symm⟩

theorem fund_ok_inv {s : VaultState} {sender : String} {funds : List Coin}
    {env : EnvInfo} {expected : OpenInterest} {s' : VaultState}
    {msgs : List VaultMsg}
    (h : fund s sender funds env expected = .ok (s', msgs)) :
    ∃ open_interest, s.open_interest = some open_interest ∧
      s.lender = none ∧ open_interest = expected ∧
      validate_liquidity_funding funds open_interest.liquidity_coin
        = .ok () ∧
      s' = { s with
              lender := some sender,
              open_interest_expiry :=
                some (env.blockTime + open_interest.expiry_duration),
              counter_offers := [],
              outstanding_debt := none } ∧
      msgs = s.counter_offers.map
        (fun e => VaultMsg.BankSend e.1 [e.2.liquidity_coin]) := by
  unfold fund at h
  split at h
  · exact absurd h (by simp)
  · rename_i open_interest hoi
    split at h
    · exact absurd h (by simp)
    · rename_i hlender
      split at h
      · exact absurd h (by simp)
      · rename_i hexp
        split at h
        · exact absurd h (by simp)
        · rename_i u hval
          simp only [refund_counter_offer_escrow, set_active_lender] at h
          injection h with h1
          injection h1 with hst' hmsgs
          refine ⟨open_interest, hoi, hlender, not_ne_iff.mp hexp, ?_, ?_, hmsgs.symm⟩
          · cases u; exact hval
          · exact hst'.symm

theorem close_ok_inv {s : VaultState} {sender : String} {s' : VaultState}
    {msgs : List VaultMsg} (h : close s sender = .ok (s', msgs)) :
    ∃ active, sender = s.owner ∧ s.lender = none ∧
      s.open_interest = some active ∧
      s' = { s with
              open_interest := none,
              counter_offers := [],
              outstanding_debt := none } ∧
      msgs = s.counter_offers.map
        (fun e => VaultMsg.BankSend e.1 [e.2.liquidity_coin]) := by
  unfold close at h
  split at h
  · exact absurd h (by simp)
  · rename_i howner
    split at h
    · exact absurd h (by simp)
    · rename_i hlender
      split at h
      · exact absurd h (by simp)
      · rename_i active hoi
        simp only [refund_counter_offer_escrow] at h
        injection h with h1
        injection h1 with hst' hmsgs
        exact ⟨active, not_ne_iff.mp howner, hlender, hoi, hst'.symm,
          hmsgs.symm⟩

theorem open_ok_inv {s : VaultState} {sender : String} {env : EnvInfo}
    {oi : OpenInterest} {s' : VaultState} {msgs : List VaultMsg}
    (h : open_interest_execute s sender env oi = .ok (s', msgs)) :
    sender = s.owner ∧ s.open_interest = none ∧
      validate_open_interest env oi = .ok () ∧
      s' = { s with open_interest := some oi, counter_offers := [] } ∧
      msgs = [] := by
  unfold open_interest_execute at h
  split at h
  · exact absurd h (by simp)
  · rename_i howner
    split at h
    · exact absurd h (by simp)
    · rename_i hoi
      split at h
      · exact absurd h (by simp)
      · rename_i u hval
        injection h with h1
        injection h1 with hst' hmsgs
        refine ⟨not_ne_iff.mp howner, hoi, ?_, hst'.symm, hmsgs.symm⟩
        cases u; exact hval

theorem validate_counter_offer_ok {active proposed : OpenInterest}
    (h : validate_counter_offer active proposed = .ok ()) :
    proposed.liquidity_coin.denom = active.liquidity_coin.denom ∧
      proposed.interest_coin = active.interest_coin ∧
      proposed.collateral = active.collateral ∧
      proposed.expiry_duration = active.expiry_duration ∧
      proposed.liquidity_coin.amount ≠ 0 ∧
      proposed.liquidity_coin.amount < active.liquidity_coin.amount := by
  unfold validate_counter_offer at h
  split at h
  · exact absurd h (by simp)
  · rename_i hterms
    push_neg at hterms
    split at h
    · exact absurd h (by simp)
    · rename_i hzero
      split at h
      · exact absurd h (by simp)
      · rename_i hge
        exact ⟨hterms.1, hterms.2.1, hterms.2.2.1, hterms.2.2.2, hzero,
          not_le.mp hge⟩

theorem add_outstanding_debt_ok {cur : Option Coin} {coin : Coin}
    {debt2 : Option Coin} (h : add_outstanding_debt cur coin = .ok debt2) :
    ∃ d2, debt2 = some d2 ∧ d2.amount = debtAmount cur + coin.amount := by
  cases cur with
  | none =>
    simp only [add_outstanding_debt] at h
    injection h with h1
    exact ⟨coin, h1.symm, by simp [debtAmount]⟩
  | some debt =>
    simp only [add_outstanding_debt] at h
    split at h
    · exact absurd h (by simp)
    · split at h
      · injection h with h1
        exact ⟨⟨debt.denom, debt.amount + coin.amount⟩, h1.symm,
          by simp [debtAmount]⟩
      · exact absurd h (by simp)

theorem release_outstanding_debt_ok {cur : Option Coin} {coin : Coin}
    {debt1 : Option Coin}
    (h : release_outstanding_debt cur coin = .ok debt1) :
    ∃ d, cur = some d ∧ coin.amount ≤ d.amount ∧
      debtAmount debt1 = d.amount - coin.amount ∧
      (debt1 = none ↔ d.amount - coin.amount = 0) := by
  cases cur with
  | none =>
    simp only [release_outstanding_debt] at h
    exact absurd h (by simp)
  | some debt =>
    simp only [release_outstanding_debt] at h
    split at h
    · exact absurd h (by simp)
    · split at h
      · rename_i hle
        injection h with h1
        refine ⟨debt, rfl, hle, ?_, ?_⟩
        · rw [← h1]
          by_cases hz : debt.amount - coin.amount = 0
          · simp [hz, debtAmount]
          · simp [hz, debtAmount]
        · rw [← h1]
          by_cases hz : debt.amount - coin.amount = 0
          · simp [hz]
          · simp [hz]
      · exact absurd h (by simp)

theorem determine_ok_none_length {book : List (String × OpenInterest)}
    {proposed : OpenInterest}
    (h : determine_eviction_candidate book proposed = .ok none) :
    book.length < MAX_COUNTER_OFFERS := by
  unfold determine_eviction_candidate snapshot_counter_offer_capacity at h
  cases book with
  | nil => simp [MAX_COUNTER_OFFERS]
  | cons first rest =>
    simp only at h
    rw [scanWorst_eq] at h
    simp only at h
    split at h
    · rename_i hlt
      simp only [List.length_cons]
      omega
    · split at h
      · exact absurd h (by simp)
      · exact absurd h (by simp)

theorem determine_ok_some_inv {book : List (String × OpenInterest)}
    {proposed : OpenInterest} {waddr : String} {woffer : OpenInterest}
    (h : determine_eviction_candidate book proposed
      = .ok (some (waddr, woffer))) :
    ∃ first rest, book = first :: rest ∧
      (waddr, woffer) = firstMinCons first rest ∧
      MAX_COUNTER_OFFERS ≤ book.length ∧
      woffer.liquidity_coin.amount < proposed.liquidity_coin.amount := by
  unfold determine_eviction_candidate snapshot_counter_offer_capacity at h
  cases book with
  | nil => exact absurd h (by simp)
  | cons first rest =>
    simp only at h
    rw [scanWorst_eq] at h
    simp only at h
    split at h
    · exact absurd h (by simp)
    · rename_i hcap
      split at h
      · exact absurd h (by simp)
      · rename_i hcomp
        injection h with h1
        injection h1 with h2
        refine ⟨first, rest, rfl, ?_, ?_, ?_⟩
        · exact h2.symm
        · have := not_lt.mp hcap
          simp only [List.length_cons]
          omega
        · have := not_le.mp hcomp
          have hamt := congrArg (fun e => e.2.liquidity_coin.amount) h2
          simp only at hamt
          rw [hamt] at this
          exact this

/-! ## Preservation of the lifecycle invariant -/

theorem inv_propose {s : VaultState} {sender : String} {funds : List Coin}
    {proposed : OpenInterest} {s' : VaultState} {msgs : List VaultMsg}
    (hInv : VaultInv s) (h : propose s sender funds proposed = .ok (s', msgs)) :
    VaultInv s' := by
  obtain ⟨hsort, hpos, hlen, hoiInv, hescInv⟩ := hInv
  obtain ⟨active, hoi, hlender, hval, hescval, hdup, hcases⟩ :=
    propose_ok_inv h
  obtain ⟨hd, hi, hc, hx, hnz, hsm⟩ := validate_counter_offer_ok hval
  have hppos : 0 < proposed.liquidity_coin.amount := Nat.pos_of_ne_zero hnz
  rcases hcases with ⟨hdet, debt2, hadd, hs', hmsgs⟩ |
      ⟨waddr, woffer, debt1, debt2, hdet, hrel, hadd, hs', hmsgs⟩
  · subst hs'
    obtain ⟨d2, hd2, hd2amt⟩ := add_outstanding_debt_ok hadd
    refine ⟨sorted_insertBook _ hsort, positive_insertBook hpos hppos, ?_,
      ?_, ?_⟩
    · show (insertBook sender proposed s.counter_offers).length ≤ _
      rw [length_insert _ hdup]
      exact determine_ok_none_length hdet
    · intro hnone
      rw [hoi] at hnone
      exact absurd hnone (by simp)
    · intro _
      obtain ⟨hsum, _⟩ := hescInv hlender
      constructor
      · show debtAmount debt2 = bookSum (insertBook sender proposed _)
        rw [hd2, bookSum_insert _ hdup]
        simp only [debtAmount]
        omega
      · constructor
        · intro hdn
          rw [hd2] at hdn
          exact absurd hdn (by simp)
        · intro hbn
          exact absurd hbn (insertBook_ne_nil _ _ _)
  · subst hs'
    obtain ⟨first, rest, hbook, hworst, hcap, hcomp⟩ :=
      determine_ok_some_inv hdet
    have hwmem : (waddr, woffer) ∈ s.counter_offers := by
      rw [hbook, hworst]
      exact firstMinCons_mem rest first
    obtain ⟨hremsum, hremlen⟩ := removeBook_mem_sorted hsort hwmem
    have hdup' : lookupBook (removeBook s.counter_offers waddr) sender
        = none := lookup_removeBook_none hdup
    obtain ⟨d, hdsome, hdle, hdamt, _⟩ := release_outstanding_debt_ok hrel
    obtain ⟨d2, hd2, hd2amt⟩ := add_outstanding_debt_ok hadd
    refine ⟨sorted_insertBook _ (sorted_removeBook _ hsort),
      positive_insertBook (positive_removeBook _ hpos) hppos, ?_, ?_, ?_⟩
    · show (insertBook sender proposed _).length ≤ _
      rw [length_insert _ hdup']
      omega
    · intro hnone
      rw [hoi] at hnone
      exact absurd hnone (by simp)
    · intro _
      obtain ⟨hsum, _⟩ := hescInv hlender
      rw [hdsome] at hsum
      simp only [debtAmount] at hsum
      constructor
      · show debtAmount debt2 = bookSum (insertBook sender proposed _)
        rw [hd2, bookSum_insert _ hdup']
        simp only [debtAmount]
        omega
      · constructor
        · intro hdn
          rw [hd2] at hdn
          exact absurd hdn (by simp)
        · intro hbn
          exact absurd hbn (insertBook_ne_nil _ _ _)

theorem inv_cancel {s : VaultState} {sender : String} {s' : VaultState}
    {msgs : List VaultMsg} (hInv : VaultInv s)
    (h : cancel s sender = .ok (s', msgs)) : VaultInv s' := by
  obtain ⟨hsort, hpos, hlen, hoiInv, hescInv⟩ := hInv
  obtain ⟨active, stored_offer, debt1, hoi, hst, hrel, hs', hmsgs⟩ :=
    cancel_ok_inv h
  subst hs'
  have hmem : (sender, stored_offer) ∈ s.counter_offers :=
    lookupBook_some_mem hst
  obtain ⟨hremsum, hremlen⟩ := removeBook_mem_sorted hsort hmem
  obtain ⟨d, hdsome, hdle, hdamt, hdiff⟩ := release_outstanding_debt_ok hrel
  have hpos' : entriesPositive (removeBook s.counter_offers sender) :=
    positive_removeBook _ hpos
  refine ⟨sorted_removeBook _ hsort, hpos', ?_, ?_, ?_⟩
  · show (removeBook s.counter_offers sender).length ≤ _
    omega
  · intro hnone
    rw [hoi] at hnone
    exact absurd hnone (by simp)
  · intro hl
    obtain ⟨hsum, _⟩ := hescInv hl
    rw [hdsome] at hsum
    simp only [debtAmount] at hsum
    constructor
    · show debtAmount debt1 = bookSum (removeBook s.counter_offers sender)
      omega
    · show debt1 = none ↔ removeBook s.counter_offers sender = []
      rw [hdiff, ← bookSum_eq_zero_iff hpos']
      omega

theorem inv_accept {s : VaultState} {sender proposer : String}
    {expected : OpenInterest} {s' : VaultState} {msgs : List VaultMsg}
    (hInv : VaultInv s)
    (h : accept s sender proposer expected = .ok (s', msgs)) :
    VaultInv s' := by
  obtain ⟨active, accepted_offer, _, _, _, _, _, hs', _⟩ := accept_ok_inv h
  subst hs'
  refine ⟨List.Pairwise.nil, ?_, ?_, ?_, ?_⟩
  · intro e he
    simp at he
  · show (0 : Nat) ≤ _
    exact Nat.zero_le _
  · intro hnone
    exact absurd hnone (by simp)
  · intro hl
    exact absurd hl (by simp)

theorem inv_fund {s : VaultState} {sender : String} {funds : List Coin}
    {env : EnvInfo} {expected : OpenInterest} {s' : VaultState}
    {msgs : List VaultMsg} (hInv : VaultInv s)
    (h : fund s sender funds env expected = .ok (s', msgs)) : VaultInv s' := by
  obtain ⟨open_interest, hoi, _, _, _, hs', _⟩ := fund_ok_inv h
  subst hs'
  refine ⟨List.Pairwise.nil, ?_, ?_, ?_, ?_⟩
  · intro e he
    simp at he
  · show (0 : Nat) ≤ _
    exact Nat.zero_le _
  · intro hnone
    rw [hoi] at hnone
    exact absurd hnone (by simp)
  · intro hl
    exact absurd hl (by simp)

theorem inv_close {s : VaultState} {sender : String} {s' : VaultState}
    {msgs : List VaultMsg} (hInv : VaultInv s)
    (h : close s sender = .ok (s', msgs)) : VaultInv s' := by
  obtain ⟨active, _, hlender, hoi, hs', _⟩ := close_ok_inv h
  subst hs'
  refine ⟨List.Pairwise.nil, ?_, ?_, ?_, ?_⟩
  · intro e he
    simp at he
  · show (0 : Nat) ≤ _
    exact Nat.zero_le _
  · intro _
    exact ⟨rfl, rfl⟩
  · intro _
    exact ⟨rfl, by simp⟩

theorem inv_open {s : VaultState} {sender : String} {env : EnvInfo}
    {oi : OpenInterest} {s' : VaultState} {msgs : List VaultMsg}
    (hInv : VaultInv s)
    (h : open_interest_execute s sender env oi = .ok (s', msgs)) :
    VaultInv s' := by
  obtain ⟨hsort, hpos, hlen, hoiInv, hescInv⟩ := hInv
  obtain ⟨_, hoi, _, hs', _⟩ := open_ok_inv h
  obtain ⟨hbook, hdebt⟩ := hoiInv hoi
  subst hs'
  refine ⟨List.Pairwise.nil, ?_, ?_, ?_, ?_⟩
  · intro e he
    simp at he
  · show (0 : Nat) ≤ _
    exact Nat.zero_le _
  · intro hnone
    exact absurd hnone (by simp)
  · intro _
    constructor
    · show debtAmount s.outstanding_debt = 0
      rw [hdebt]
      rfl
    · show s.outstanding_debt = none ↔ ([] : List (String × OpenInterest)) = []
      rw [hdebt]
      simp

theorem inv_stepOp {s : VaultState} {c : OpCall} {s' : VaultState}
    {msgs : List VaultMsg} (hInv : VaultInv s)
    (h : stepOp s c = .ok (s', msgs)) : VaultInv s' := by
  cases c with
  | OpenCall sender env terms => exact inv_open hInv h
  | CloseCall sender => exact inv_close hInv h
  | ProposeCall sender funds offer => exact inv_propose hInv h
  | CancelCall sender => exact inv_cancel hInv h
  | AcceptCall sender proposer expected => exact inv_accept hInv h
  | FundCall sender funds env expected => exact inv_fund hInv h

theorem inv_applyOp {s : VaultState} (c : OpCall) (hInv : VaultInv s) :
    VaultInv (applyOp s c) := by
  unfold applyOp
  split
  · rename_i s' msgs hok
    exact inv_stepOp hInv hok
  · exact hInv

theorem inv_runOps {s : VaultState} (cs : List OpCall) (hInv : VaultInv s) :
    VaultInv (runOps s cs) := by
  induction cs generalizing s with
  | nil => exact hInv
  | cons c rest ih =>
    exact ih (inv_applyOp c hInv)

theorem inv_initState (owner : String) : VaultInv (initState owner) := by
  refine ⟨List.Pairwise.nil, ?_, ?_, ?_, ?_⟩
  · intro e he
    simp [initState] at he
  · show (0 : Nat) ≤ _
    exact Nat.zero_le _
  · intro _
    exact ⟨rfl, rfl⟩
  · intro _
    exact ⟨rfl, by simp [initState]⟩

/-! ## Claim theorems -/

/-- Claim C1: Escrow invariant.  For every sequence of lifecycle calls
(open/close/propose/cancel/accept/fund — in particular every sequence of
propose, cancel, accept, fund and close calls) starting from the initial
state, while no lender is bound the stored outstanding-debt coin's amount
equals the sum of the liquidity amounts of all counter-offer entries
currently in the book, and the outstanding debt is `None` exactly when the
book is empty.  Failed calls abort atomically and leave the state
unchanged. -/
theorem C1_escrow_invariant (owner : String) (ops : List OpCall)
    (h : (runOps (initState owner) ops).lender = none) :
    debtAmount (runOps (initState owner) ops).outstanding_debt
        = bookSum (runOps (initState owner) ops).counter_offers ∧
      ((runOps (initState owner) ops).outstanding_debt = none ↔
        (runOps (initState owner) ops).counter_offers = []) :=
  (inv_runOps ops (inv_initState owner)).2.2.2.2 h

/-- Witness for C1: opening terms and then proposing a 950 uusd counter
offer leaves no lender bound, an outstanding debt of 950 matching the
single book entry. -/
theorem C1_escrow_invariant_witness :
    (runOps (initState "owner") demoOps).lender = none ∧
      (debtAmount (runOps (initState "owner") demoOps).outstanding_debt
          = bookSum (runOps (initState "owner") demoOps).counter_offers ∧
        ((runOps (initState "owner") demoOps).outstanding_debt = none ↔
          (runOps (initState "owner") demoOps).counter_offers = [])) :=
  ⟨by decide, C1_escrow_invariant "owner" demoOps (by decide)⟩

/-- Claim C8: Capacity invariant.  `MAX_COUNTER_OFFERS` is 255, the maximum
value of an 8-bit counter, and in every state reachable by lifecycle calls
from the initial state — in particular after every successful propose — the
number of entries in the counter-offer book is at most that capacity. -/
theorem C8_capacity_invariant (owner : String) (ops : List OpCall) :
    MAX_COUNTER_OFFERS = 255 ∧
      (runOps (initState owner) ops).counter_offers.length
        ≤ MAX_COUNTER_OFFERS :=
  ⟨rfl, (inv_runOps ops (inv_initState owner)).2.2.1⟩

/-- Claim C9 (implicit): whenever the stored outstanding debt is `Some`,
`repay` called by the owner fails with the outstanding-debt error carrying
that coin — the debt guard runs before the open-interest and lender checks,
so the error is never no-open-interest or no-lender, and no state
changes. -/
theorem C9_repay_debt_guard (s : VaultState) (sender : String)
    (env : EnvInfo) (d : Coin) (howner : sender = s.owner)
    (hdebt : s.outstanding_debt = some d) :
    repay s sender env = .error (.OutstandingDebt d) := by
  unfold repay
  rw [if_neg (not_ne_iff.mpr howner), hdebt]

/-- Witness for C9: the escrow-phase state with a live 1850 uusd debt makes
the owner's repay fail with exactly that outstanding-debt error, although
an open interest is active. -/
theorem C9_repay_debt_guard_witness :
    ("owner" = c3State.owner ∧
        c3State.outstanding_debt = some ⟨"uusd", 1850⟩) ∧
      repay c3State "owner" c6Env
        = .error (.OutstandingDebt ⟨"uusd", 1850⟩) :=
  ⟨⟨rfl, rfl⟩, C9_repay_debt_guard c3State "owner" c6Env _ rfl rfl⟩

theorem min_lock_eval (env : EnvInfo) (oi : OpenInterest)
    (hrw : env.totalRewards + query_staked_balance env oi.collateral.denom
      < U256_BOUND) :
    minimum_collateral_lock_for_denom env oi.collateral.denom (some oi) =
      .ok (if oi.collateral.denom = env.bondedDenom then
            oi.collateral.amount -
              (env.totalRewards + query_staked_balance env oi.collateral.denom)
          else oi.collateral.amount) := by
  simp only [minimum_collateral_lock_for_denom]
  rw [if_neg (not_ne_iff.mpr rfl)]
  by_cases hb : oi.collateral.denom = env.bondedDenom
  · rw [if_neg (not_ne_iff.mpr hb), if_pos hrw, if_pos hb]
  · rw [if_pos hb, if_neg hb]

/-- Claim C7: Open collateral availability.  For terms that reach the
collateral check, it succeeds when the vault balance in the collateral denom
covers the collateral amount; otherwise, when the collateral denom is the
bonded denom it succeeds exactly when balance plus coverage (claimable
staking rewards plus staked balance) covers it; in every other insufficient
case it fails with an insufficient-balance error naming the denom, the
effective available amount and the requested amount.  (Stated under the
no-overflow side conditions of the checked `Uint256` arithmetic.) -/
theorem C7_open_collateral_availability (env : EnvInfo) (oi : OpenInterest)
    (hrw : env.totalRewards + query_staked_balance env oi.collateral.denom
      < U256_BOUND)
    (hbal : env.balances oi.collateral.denom + oi.collateral.amount
      < U256_BOUND) :
    (ensure_collateral_available env oi = .ok () ↔
      (oi.collateral.amount ≤ env.balances oi.collateral.denom ∨
        (oi.collateral.denom = env.bondedDenom ∧
          oi.collateral.amount ≤ env.balances oi.collateral.denom +
            (env.totalRewards +
              query_staked_balance env oi.collateral.denom)))) ∧
    (¬ (oi.collateral.amount ≤ env.balances oi.collateral.denom ∨
        (oi.collateral.denom = env.bondedDenom ∧
          oi.collateral.amount ≤ env.balances oi.collateral.denom +
            (env.totalRewards +
              query_staked_balance env oi.collateral.denom))) →
      ensure_collateral_available env oi =
        .error (.InsufficientBalance oi.collateral.denom
          (if oi.collateral.denom = env.bondedDenom then
            env.balances oi.collateral.denom +
              (env.totalRewards +
                query_staked_balance env oi.collateral.denom)
          else env.balances oi.collateral.denom)
          oi.collateral.amount)) := by
  have heval : ensure_collateral_available env oi =
      (if oi.collateral.amount ≤ env.balances oi.collateral.denom then
        .ok ()
      else if oi.collateral.denom = env.bondedDenom then
        (if oi.collateral.amount -
              (env.totalRewards +
                query_staked_balance env oi.collateral.denom) ≤
            env.balances oi.collateral.denom then .ok ()
        else if oi.collateral.amount ≤ env.balances oi.collateral.denom +
            (env.totalRewards +
              query_staked_balance env oi.collateral.denom) then .ok ()
        else .error (.InsufficientBalance oi.collateral.denom
          (env.balances oi.collateral.denom +
            (env.totalRewards +
              query_staked_balance env oi.collateral.denom))
          oi.collateral.amount))
      else .error (.InsufficientBalance oi.collateral.denom
        (env.balances oi.collateral.denom) oi.collateral.amount)) := by
    by_cases h0 : oi.collateral.amount ≤ env.balances oi.collateral.denom
    · simp [ensure_collateral_available, h0]
    · by_cases hb : oi.collateral.denom = env.bondedDenom
      · have hbd : ¬ (oi.collateral.denom ≠ env.bondedDenom) :=
          not_ne_iff.mpr hb
        by_cases h1 : oi.collateral.amount -
            (env.totalRewards +
              query_staked_balance env oi.collateral.denom) ≤
            env.balances oi.collateral.denom
        · simp [ensure_collateral_available,
            minimum_collateral_lock_for_denom, h0, hbd, hrw, h1]
          rw [if_pos hb]
        · have hcov : env.totalRewards +
              query_staked_balance env oi.collateral.denom <
              oi.collateral.amount := by omega
          have hsc : oi.collateral.amount -
              (oi.collateral.amount -
                (env.totalRewards +
                  query_staked_balance env oi.collateral.denom)) =
              env.totalRewards +
                query_staked_balance env oi.collateral.denom := by omega
          have hov : env.balances oi.collateral.denom +
              (env.totalRewards +
                query_staked_balance env oi.collateral.denom) <
              U256_BOUND := by omega
          by_cases h2 : oi.collateral.amount ≤
              env.balances oi.collateral.denom +
                (env.totalRewards +
                  query_staked_balance env oi.collateral.denom)
          · simp [ensure_collateral_available,
              minimum_collateral_lock_for_denom, h0, hbd, hrw, h1, hsc, hov,
              h2]
            rw [if_pos hb]
          · simp [ensure_collateral_available,
              minimum_collateral_lock_for_denom, h0, hbd, hrw, h1, hsc, hov,
              h2]
            rw [if_pos hb]
      · have hsc : oi.collateral.amount - oi.collateral.amount = 0 :=
          Nat.sub_self _
        have hov : env.balances oi.collateral.denom + 0 < U256_BOUND := by
          omega
        simp [ensure_collateral_available,
          minimum_collateral_lock_for_denom, h0, hb, hsc, hov]
        omega
  rw [heval]
  constructor
  · by_cases h0 : oi.collateral.amount ≤ env.balances oi.collateral.denom
    · rw [if_pos h0]
      simp [h0]
    · rw [if_neg h0]
      by_cases hb : oi.collateral.denom = env.bondedDenom
      · rw [if_pos hb]
        by_cases h1 : oi.collateral.amount -
            (env.totalRewards +
              query_staked_balance env oi.collateral.denom) ≤
            env.balances oi.collateral.denom
        · rw [if_pos h1]
          constructor
          · intro _
            exact Or.inr ⟨hb, by omega⟩
          · intro _
            rfl
        · rw [if_neg h1]
          by_cases h2 : oi.collateral.amount ≤
              env.balances oi.collateral.denom +
                (env.totalRewards +
                  query_staked_balance env oi.collateral.denom)
          · rw [if_pos h2]
            constructor
            · intro _
              exact Or.inr ⟨hb, h2⟩
            · intro _
              rfl
          · rw [if_neg h2]
            constructor
            · intro hfalse
              exact absurd hfalse (by simp)
            · intro hor
              rcases hor with hc | ⟨_, hc⟩
              · exact absurd hc h0
              · exact absurd hc h2
      · rw [if_neg hb]
        constructor
        · intro hfalse
          exact absurd hfalse (by simp)
        · intro hor
          rcases hor with hc | ⟨hc, _⟩
          · exact absurd hc h0
          · exact absurd hc hb
  · intro hins
    push_neg at hins
    obtain ⟨h0, h1⟩ := hins
    rw [if_neg (by omega)]
    by_cases hb : oi.collateral.denom = env.bondedDenom
    · have h2 := h1 hb
      rw [if_pos hb, if_pos hb, if_neg (by omega), if_neg (by omega)]
    · rw [if_neg hb, if_neg hb]

/-- Witness for C7: a non-bonded collateral of 200 uatom against a balance
of 150 fails with the insufficient-balance error naming 150 and 200. -/
theorem C7_open_collateral_availability_witness :
    (demoEnvA.totalRewards +
        query_staked_balance demoEnvA (offerAt 950).collateral.denom
          < U256_BOUND ∧
      demoEnvA.balances (offerAt 950).collateral.denom +
        (offerAt 950).collateral.amount < U256_BOUND) ∧
      (ensure_collateral_available demoEnvA (offerAt 950) = .ok () ↔
        ((offerAt 950).collateral.amount ≤
            demoEnvA.balances (offerAt 950).collateral.denom ∨
          ((offerAt 950).collateral.denom = demoEnvA.bondedDenom ∧
            (offerAt 950).collateral.amount ≤
              demoEnvA.balances (offerAt 950).collateral.denom +
                (demoEnvA.totalRewards +
                  query_staked_balance demoEnvA
                    (offerAt 950).collateral.denom)))) :=
  ⟨⟨by decide, by decide⟩,
    (C7_open_collateral_availability demoEnvA (offerAt 950) (by decide)
      (by decide)).1⟩

theorem build_repayment_amounts_eval (oi : OpenInterest)
    (hfit : ∀ dr ∈ spec_repay_totals oi, dr.2 < U128_BOUND) :
    build_repayment_amounts oi =
      .ok ((spec_repay_totals oi).map (fun dr => (dr.1, dr.2, dr.2))) := by
  have h128 : U128_BOUND < U256_BOUND := by decide
  unfold build_repayment_amounts repayment_requirements
  by_cases hsame : oi.interest_coin.denom = oi.liquidity_coin.denom
  · have hf := hfit (oi.liquidity_coin.denom,
      oi.liquidity_coin.amount + oi.interest_coin.amount)
      (by simp [spec_repay_totals, hsame])
    simp only at hf
    rw [if_pos hsame, if_pos (by omega)]
    simp only [spec_repay_totals, if_pos hsame, List.map]
    simp [hf]
  · by_cases hlt : keyLt oi.interest_coin.denom oi.liquidity_coin.denom = true
    · have hf1 := hfit (oi.interest_coin.denom, oi.interest_coin.amount)
        (by simp [spec_repay_totals, hsame, hlt])
      have hf2 := hfit (oi.liquidity_coin.denom, oi.liquidity_coin.amount)
        (by simp [spec_repay_totals, hsame, hlt])
      simp only at hf1 hf2
      rw [if_neg hsame, if_pos hlt]
      simp only [spec_repay_totals, if_neg hsame, if_pos hlt, List.map]
      simp [hf1, hf2]
    · have hf1 := hfit (oi.liquidity_coin.denom, oi.liquidity_coin.amount)
        (by simp [spec_repay_totals, hsame, hlt])
      have hf2 := hfit (oi.interest_coin.denom, oi.interest_coin.amount)
        (by simp [spec_repay_totals, hsame, hlt])
      simp only at hf1 hf2
      rw [if_neg hsame, if_neg hlt]
      simp only [spec_repay_totals, if_neg hsame, if_neg hlt, List.map]
      simp [hf1, hf2]

theorem repay_balance_fold_ok (env : EnvInfo)
    (reqs : List (String × Nat × Nat))
    (hsuff : ∀ e ∈ reqs, e.2.1 ≤ env.balances e.1) :
    repay_balance_fold env reqs =
      .ok (reqs.map (fun e => Coin.mk e.1 e.2.2)) := by
  induction reqs with
  | nil => rfl
  | cons a t ih =>
    have ha := hsuff a (List.mem_cons_self _ _)
    have ht : ∀ e ∈ t, e.2.1 ≤ env.balances e.1 :=
      fun e he => hsuff e (List.mem_cons_of_mem _ he)
    simp only [repay_balance_fold, List.foldr_cons] at ih ⊢
    rw [if_neg (by omega), ih ht]
    simp

theorem repay_balance_fold_short (env : EnvInfo)
    (reqs : List (String × Nat × Nat))
    (hex : ∃ e ∈ reqs, env.balances e.1 < e.2.1) :
    ∃ e, e ∈ reqs ∧ env.balances e.1 < e.2.1 ∧
      repay_balance_fold env reqs =
        .error (.InsufficientBalance e.1 (env.balances e.1) e.2.1) := by
  induction reqs with
  | nil => simp at hex
  | cons a t ih =>
    by_cases ha : env.balances a.1 < a.2.1
    · refine ⟨a, List.mem_cons_self _ _, ha, ?_⟩
      simp only [repay_balance_fold, List.foldr_cons]
      rw [if_pos ha]
    · obtain ⟨e, hemem, helt⟩ := hex
      rcases List.mem_cons.mp hemem with hea | het
      · rw [hea] at helt
        exact absurd helt ha
      · obtain ⟨e', hmem', hlt', heq'⟩ := ih ⟨e, het, helt⟩
        refine ⟨e', List.mem_cons_of_mem _ hmem', hlt', ?_⟩
        simp only [repay_balance_fold, List.foldr_cons] at heq' ⊢
        rw [if_neg ha, heq']

/-- Claim C6: Repayment.  `repay` succeeds only when the caller is the
owner, no outstanding debt remains, an open interest is active and a lender
is bound; under those preconditions (and with the per-denom totals fitting
the 128-bit transfer type) it sums the liquidity and interest coins per
denom (merged when they share a denom), fails with an insufficient-balance
error whenever some denom's vault balance is below its total, and otherwise
pays the totals to the lender in one batched transfer and clears
`OpenInterest`, `Lender` and `Expiry`. -/
theorem C6_repay_correct (s : VaultState) (sender : String) (env : EnvInfo) :
    (∀ s' msgs, repay s sender env = .ok (s', msgs) →
      sender = s.owner ∧ s.outstanding_debt = none ∧
        s.open_interest ≠ none ∧ s.lender ≠ none) ∧
    (∀ oi l, sender = s.owner → s.outstanding_debt = none →
      s.open_interest = some oi → s.lender = some l →
      (∀ dr ∈ spec_repay_totals oi, dr.2 < U128_BOUND) →
      ((∃ dr ∈ spec_repay_totals oi, env.balances dr.1 < dr.2) →
        ∃ d r, (d, r) ∈ spec_repay_totals oi ∧ env.balances d < r ∧
          repay s sender env =
            .error (.InsufficientBalance d (env.balances d) r)) ∧
      ((∀ dr ∈ spec_repay_totals oi, dr.2 ≤ env.balances dr.1) →
        repay s sender env = .ok
          ({ s with
              open_interest := none,
              lender := none,
              open_interest_expiry := none },
           [VaultMsg.BankSend l
              ((spec_repay_totals oi).map (fun dr => Coin.mk dr.1 dr.2))]))) := by
  constructor
  · intro s' msgs h
    unfold repay at h
    split at h
    · exact absurd h (by simp)
    · rename_i howner
      split at h
      · exact absurd h (by simp)
      · rename_i hdebt
        split at h
        · exact absurd h (by simp)
        · rename_i oi hoi
          split at h
          · exact absurd h (by simp)
          · rename_i l hl
            refine ⟨not_ne_iff.mp howner, hdebt, ?_, ?_⟩
            · rw [hoi]; simp
            · rw [hl]; simp
  · intro oi l howner hdebt hoi hl hfit
    have hbuild := build_repayment_amounts_eval oi hfit
    constructor
    · intro hex
      obtain ⟨dr, hdrmem, hdrlt⟩ := hex
      have hex' : ∃ e ∈ (spec_repay_totals oi).map
          (fun dr => (dr.1, dr.2, dr.2)), env.balances e.1 < e.2.1 := by
        refine ⟨(dr.1, dr.2, dr.2), List.mem_map_of_mem _ hdrmem, hdrlt⟩
      obtain ⟨e, hemem, helt, heq⟩ := repay_balance_fold_short env _ hex'
      obtain ⟨dr', hdr'mem, hdr'eq⟩ := List.mem_map.mp hemem
      refine ⟨e.1, e.2.1, ?_, helt, ?_⟩
      · rw [← hdr'eq] at *
        simpa using hdr'mem
      · simp only [repay, if_neg (not_ne_iff.mpr howner), hdebt, hoi, hl,
          hbuild, heq]
    · intro hsuff
      have hsuff' : ∀ e ∈ (spec_repay_totals oi).map
          (fun dr => (dr.1, dr.2, dr.2)), e.2.1 ≤ env.balances e.1 := by
        intro e he
        obtain ⟨dr', hdr'mem, hdr'eq⟩ := List.mem_map.mp he
        rw [← hdr'eq]
        exact hsuff dr' hdr'mem
      have hfold := repay_balance_fold_ok env _ hsuff'
      simp only [repay, if_neg (not_ne_iff.mpr howner), hdebt, hoi, hl,
        hbuild, hfold]
      rw [List.map_map]
      rfl

/-- Witness for C6: with demo terms (1000 uusd liquidity, 50 ujuno
interest), balances exactly covering both denoms, repay pays the lender one
batched transfer of both totals and clears the position. -/
theorem C6_repay_correct_witness :
    ((∀ dr ∈ spec_repay_totals demoTerms, dr.2 < U128_BOUND) ∧
        (∀ dr ∈ spec_repay_totals demoTerms,
          dr.2 ≤ c6Env.balances dr.1)) ∧
      repay c6State "owner" c6Env = .ok
        ({ c6State with
            open_interest := none,
            lender := none,
            open_interest_expiry := none },
         [VaultMsg.BankSend "lend"
            ((spec_repay_totals demoTerms).map
              (fun dr => Coin.mk dr.1 dr.2))]) :=
  ⟨⟨by decide, by decide⟩,
    ((C6_repay_correct c6State "owner" c6Env).2 demoTerms "lend" rfl rfl rfl
      rfl (by decide)).2 (by decide)⟩

/-! ## Lemmas about the liquidation pipeline -/

theorem load_liquidation_context_eval {s : VaultState} {sender : String}
    {env : EnvInfo} {oi : OpenInterest} {l : String} {exp : Nat}
    (hoi : s.open_interest = some oi) (hl : s.lender = some l)
    (hexp : s.open_interest_expiry = some exp)
    (htime : exp ≤ env.blockTime) (hauth : sender = s.owner ∨ sender = l) :
    load_liquidation_context s sender env =
      .ok { open_interest := oi, lender := l,
            denom := oi.collateral.denom, bonded_denom := env.bondedDenom } := by
  have hreq : require_owner_or_lender s sender = .ok () := by
    unfold require_owner_or_lender
    by_cases hso : sender = s.owner
    · rw [if_pos hso]
    · simp only [if_neg hso, hl]
      rcases hauth with h | h
      · exact absurd h hso
      · rw [if_pos h]
  simp only [load_liquidation_context, hreq, hoi, hl, hexp,
    if_neg (not_lt.mpr htime)]

theorem get_outstanding_amount_eval {ctx : LiquidationContext}
    {s : VaultState}
    (hcompat : ∀ d, s.outstanding_debt = some d → d.denom = ctx.denom) :
    get_outstanding_amount ctx s =
      .ok (spec_amount_owed s.outstanding_debt
        ctx.open_interest.collateral.amount) := by
  cases hd : s.outstanding_debt with
  | none => simp [get_outstanding_amount, spec_amount_owed, hd]
  | some d =>
    simp only [get_outstanding_amount, spec_amount_owed, hd]
    rw [if_neg (not_ne_iff.mpr (hcompat d hd))]

theorem get_outstanding_amount_mismatch {ctx : LiquidationContext}
    {s : VaultState} {d : Coin} (hd : s.outstanding_debt = some d)
    (hne : d.denom ≠ ctx.denom) :
    get_outstanding_amount ctx s =
      .error (.Std "Outstanding debt denom mismatch") := by
  simp only [get_outstanding_amount, hd]
  rw [if_pos hne]

theorem collect_funds_eval (ctx : LiquidationContext) (env : EnvInfo)
    (remaining : Nat)
    (hov : env.balances ctx.denom + env.rewardsOf ctx.denom < U256_BOUND) :
    collect_funds ctx env remaining =
      .ok (spec_available ctx.denom ctx.bonded_denom
            (env.balances ctx.denom) (env.rewardsOf ctx.denom) remaining,
           (if ctx.denom = ctx.bonded_denom ∧
              env.balances ctx.denom < remaining then
             env.rewardsOf ctx.denom else 0),
           (if ctx.denom = ctx.bonded_denom ∧
                env.balances ctx.denom < remaining ∧
                env.rewardsOf ctx.denom ≠ 0 then
             env.delegations.map
               (fun d => VaultMsg.WithdrawDelegatorReward d.validator)
           else [])) := by
  simp only [collect_funds, spec_available]
  by_cases hb : ctx.denom = ctx.bonded_denom ∧
      env.balances ctx.denom < remaining
  · rw [if_pos hb, if_pos hb, if_pos hb, if_pos hov]
    by_cases hz : env.rewardsOf ctx.denom = 0
    · rw [if_pos hz]
      rw [if_neg (by intro hc; exact hc.2.2 hz)]
    · rw [if_neg hz]
      rw [if_pos ⟨hb.1, hb.2, hz⟩]
  · rw [if_neg hb, if_neg hb, if_neg hb]
    rw [if_neg (by intro hc; exact hb ⟨hc.1, hc.2.1⟩)]

theorem collect_funds_msgs {ctx : LiquidationContext} {env : EnvInfo}
    {remaining available claimed : Nat} {msgs : List VaultMsg}
    (h : collect_funds ctx env remaining = .ok (available, claimed, msgs)) :
    ∀ m ∈ msgs, isRewardMsg m = true := by
  simp only [collect_funds] at h
  split at h
  · split at h
    · injection h with h1
      have hm := congrArg (fun p => p.2.2) h1
      simp only at hm
      rw [← hm]
      intro m hm'
      split at hm'
      · simp at hm'
      · obtain ⟨d, _, hd⟩ := List.mem_map.mp hm'
        rw [← hd]
        rfl
    · exact absurd h (by simp)
  · injection h with h1
    have hm := congrArg (fun p => p.2.2) h1
    simp only at hm
    rw [← hm]
    intro m hm'
    simp at hm'

theorem spec_undelegations_zero (denom : String) (dels : List Delegation) :
    spec_undelegations denom dels 0 = ([], 0) := by
  cases dels with
  | nil => rfl
  | cons d rest => simp [spec_undelegations]

theorem spec_undelegations_le (denom : String) (dels : List Delegation)
    (remaining : Nat) :
    (spec_undelegations denom dels remaining).2 ≤ remaining := by
  induction dels generalizing remaining with
  | nil => simp [spec_undelegations]
  | cons d rest ih =>
    by_cases h0 : remaining = 0
    · simp [spec_undelegations, h0]
    · simp only [spec_undelegations, if_neg h0]
      by_cases hz : min d.amount.amount remaining = 0
      · rw [if_pos hz]
        exact ih remaining
      · rw [if_neg hz]
        have := ih (remaining - min d.amount.amount remaining)
        have hmin : min d.amount.amount remaining ≤ remaining :=
          Nat.min_le_right _ _
        simp only
        omega

theorem spec_undelegations_msgs (denom : String) (dels : List Delegation)
    (remaining : Nat) :
    ∀ m ∈ (spec_undelegations denom dels remaining).1,
      isUndelegateMsg m = true := by
  induction dels generalizing remaining with
  | nil => simp [spec_undelegations]
  | cons d rest ih =>
    by_cases h0 : remaining = 0
    · simp [spec_undelegations, h0]
    · simp only [spec_undelegations, if_neg h0]
      by_cases hz : min d.amount.amount remaining = 0
      · rw [if_pos hz]
        exact ih remaining
      · rw [if_neg hz]
        intro m hm
        simp only at hm
        rcases List.mem_cons.mp hm with hm1 | hm2
        · rw [hm1]
          rfl
        · exact ih _ m hm2

theorem schedule_undelegations_loop_eval (denom : String)
    (dels : List Delegation) (rtu und : Nat) (msgs : List VaultMsg)
    (hfit : rtu < U128_BOUND) :
    schedule_undelegations_loop denom dels rtu und msgs =
      .ok (msgs ++ (spec_undelegations denom dels rtu).1,
           und + (spec_undelegations denom dels rtu).2) := by
  induction dels generalizing rtu und msgs with
  | nil => simp [schedule_undelegations_loop, spec_undelegations]
  | cons d rest ih =>
    by_cases h0 : rtu = 0
    · simp [schedule_undelegations_loop, spec_undelegations, h0]
    · simp only [schedule_undelegations_loop, spec_undelegations,
        if_neg h0]
      by_cases hz : d.amount.amount = 0
      · rw [if_pos hz]
        have hmin : min d.amount.amount rtu = 0 := by
          rw [hz]
          simp
        rw [if_pos hmin]
        exact ih rtu und msgs hfit
      · rw [if_neg hz]
        have hminne : ¬ (min d.amount.amount rtu = 0) := by
          intro hc
          rcases Nat.min_eq_zero_iff.mp hc with hc' | hc'
          · exact hz hc'
          · exact h0 hc'
        rw [if_neg hminne]
        have hminle : min d.amount.amount rtu ≤ rtu := Nat.min_le_right _ _
        rw [if_pos (by omega)]
        rw [ih (rtu - min d.amount.amount rtu) _ _ (by omega)]
        simp only [List.append_assoc, List.singleton_append]
        rw [Nat.add_assoc]

theorem schedule_undelegations_eval (ctx : LiquidationContext)
    (env : EnvInfo) (remaining : Nat) (hfit : remaining < U128_BOUND) :
    schedule_undelegations ctx env remaining =
      .ok (spec_undelegations ctx.denom env.delegations remaining) := by
  unfold schedule_undelegations
  by_cases h0 : remaining = 0
  · rw [if_pos h0, h0, spec_undelegations_zero]
  · rw [if_neg h0]
    rw [schedule_undelegations_loop_eval ctx.denom env.delegations
      remaining 0 [] hfit]
    simp

theorem finalize_state_eval (ctx : LiquidationContext) (s : VaultState)
    (remaining : Nat) (hfit : remaining < U128_BOUND) :
    finalize_state ctx s remaining =
      .ok (if remaining = 0 then clearedPosition s
           else { s with outstanding_debt := some ⟨ctx.denom, remaining⟩ }) := by
  unfold finalize_state clearedPosition
  by_cases h0 : remaining = 0
  · rw [if_pos h0, if_pos h0]
  · rw [if_neg h0, if_pos hfit, if_neg h0]

/-- Claim C4: Liquidation settlement.  For every eligible liquidate call
(caller owner or lender, open interest, lender and expiry present, block
time at or past expiry; amounts within the 128-bit transfer type and no
`Uint256` overflow): the amount owed is the stored outstanding debt when
present — whose denom must equal the collateral denom, else the call fails
with a consistency error — and the full collateral amount otherwise; the
payout equals `min(available, owed)` where available counts claimable
rewards only when the collateral denom is bonded and the balance alone is
short; a nonzero remainder on a non-bonded denom fails with
insufficient-balance; otherwise undelegations of `min(remaining, stake)`
are scheduled until remaining hits zero, and the settled remainder either
clears the whole position (zero) or is persisted as the new outstanding
debt (nonzero). -/
theorem C4_liquidation_settlement (s : VaultState) (sender : String)
    (env : EnvInfo) (oi : OpenInterest) (l : String) (exp : Nat)
    (hoi : s.open_interest = some oi) (hl : s.lender = some l)
    (hexp : s.open_interest_expiry = some exp)
    (htime : exp ≤ env.blockTime)
    (hauth : sender = s.owner ∨ sender = l)
    (hov : env.balances oi.collateral.denom +
      env.rewardsOf oi.collateral.denom < U256_BOUND)
    (hfit : spec_amount_owed s.outstanding_debt oi.collateral.amount
      < U128_BOUND) :
    (∀ d, s.outstanding_debt = some d → d.denom ≠ oi.collateral.denom →
      liquidate s sender env =
        .error (.Std "Outstanding debt denom mismatch")) ∧
    ((∀ d, s.outstanding_debt = some d →
        d.denom = oi.collateral.denom) →
      ∀ owed available payout,
        owed = spec_amount_owed s.outstanding_debt oi.collateral.amount →
        available = spec_available oi.collateral.denom env.bondedDenom
          (env.balances oi.collateral.denom)
          (env.rewardsOf oi.collateral.denom) owed →
        payout = min available owed →
        ((owed - payout ≠ 0 ∧ oi.collateral.denom ≠ env.bondedDenom →
          liquidate s sender env =
            .error (.InsufficientBalance oi.collateral.denom available
              owed)) ∧
        (¬ (owed - payout ≠ 0 ∧ oi.collateral.denom ≠ env.bondedDenom) →
          ∀ settled, settled = owed - payout -
              (spec_undelegations oi.collateral.denom env.delegations
                (owed - payout)).2 →
          ∃ rmsgs, (∀ m ∈ rmsgs, isRewardMsg m = true) ∧
            liquidate s sender env = .ok
              ((if settled = 0 then clearedPosition s
                else carriedDebt s oi.collateral.denom settled),
               rmsgs ++
                 (if payout = 0 then []
                  else [VaultMsg.BankSend l
                    [⟨oi.collateral.denom, payout⟩]]) ++
                 (spec_undelegations oi.collateral.denom env.delegations
                   (owed - payout)).1)))) := by
  have hctx := load_liquidation_context_eval hoi hl hexp htime hauth
  constructor
  · intro d hd hne
    have hmis := @get_outstanding_amount_mismatch
      { open_interest := oi, lender := l,
        denom := oi.collateral.denom,
        bonded_denom := env.bondedDenom } s d hd hne
    simp only [liquidate, hctx, hmis]
  · intro hcompat owed available payout howed havail hpay
    have hget := @get_outstanding_amount_eval
      { open_interest := oi, lender := l,
        denom := oi.collateral.denom,
        bonded_denom := env.bondedDenom } s hcompat
    have hcol := collect_funds_eval
      { open_interest := oi, lender := l, denom := oi.collateral.denom,
        bonded_denom := env.bondedDenom } env owed hov
    have howedfit : owed < U128_BOUND := by rw [howed]; exact hfit
    rw [← howed] at hget
    rw [← havail] at hcol
    have hpayfit : payout < U128_BOUND := by
      rw [hpay]
      exact lt_of_le_of_lt (Nat.min_le_right _ _) howedfit
    have hremfit : owed - payout < U128_BOUND := by omega
    have hsched := schedule_undelegations_eval
      { open_interest := oi, lender := l, denom := oi.collateral.denom,
        bonded_denom := env.bondedDenom } env (owed - payout) hremfit
    have hule := spec_undelegations_le oi.collateral.denom env.delegations
      (owed - payout)
    have hsettledfit : owed - payout -
        (spec_undelegations oi.collateral.denom env.delegations
          (owed - payout)).2 < U128_BOUND := by omega
    have hfin := finalize_state_eval
      { open_interest := oi, lender := l, denom := oi.collateral.denom,
        bonded_denom := env.bondedDenom } s
      (owed - payout -
        (spec_undelegations oi.collateral.denom env.delegations
          (owed - payout)).2) hsettledfit
    constructor
    · rintro ⟨hrem, hnb⟩
      simp only [liquidate, hctx, hget, hcol, ← hpay]
      by_cases hp0 : payout = 0
      · rw [if_pos hp0]
        simp only [if_pos (show owed - payout ≠ 0 ∧
          oi.collateral.denom ≠ env.bondedDenom from ⟨hrem, hnb⟩)]
      · rw [if_neg hp0]
        simp only [payout_message, if_pos hpayfit]
        simp only [if_pos (show owed - payout ≠ 0 ∧
          oi.collateral.denom ≠ env.bondedDenom from ⟨hrem, hnb⟩)]
    · intro hok settled hset
      subst hset
      refine ⟨(if oi.collateral.denom = env.bondedDenom ∧
            env.balances oi.collateral.denom < owed ∧
            env.rewardsOf oi.collateral.denom ≠ 0 then
          env.delegations.map
            (fun d => VaultMsg.WithdrawDelegatorReward d.validator)
        else []), ?_, ?_⟩
      · intro m hm
        split at hm
        · obtain ⟨d, _, hd⟩ := List.mem_map.mp hm
          rw [← hd]
          rfl
        · simp at hm
      · simp only [liquidate, hctx, hget, hcol, ← hpay]
        by_cases hp0 : payout = 0
        · rw [if_pos hp0]
          simp only [if_neg hok, hsched, hfin, carriedDebt]
          rw [if_pos hp0]
        · rw [if_neg hp0]
          simp only [payout_message, if_pos hpayfit]
          simp only [if_neg hok, hsched, hfin, carriedDebt]
          rw [if_neg hp0]

/-- Witness for C4: liquidating an expired position owing 25 ucosm with a
balance of 10, rewards of 5 and stakes of 7 and 100 pays 15, undelegates
7 and 3, settles to zero and clears the position. -/
theorem C4_liquidation_settlement_witness :
    c5State.lender = some "lend" ∧
      (∃ rmsgs, (∀ m ∈ rmsgs, isRewardMsg m = true) ∧
        liquidate c5State "owner" c5Env = .ok
          (clearedPosition c5State,
           rmsgs ++ [VaultMsg.BankSend "lend" [⟨"ucosm", 15⟩]] ++
             [VaultMsg.Undelegate "val1" ⟨"ucosm", 7⟩,
              VaultMsg.Undelegate "val2" ⟨"ucosm", 3⟩])) :=
  ⟨rfl,
    ((C4_liquidation_settlement c5State "owner" c5Env
        ⟨⟨"uusd", 1000⟩, ⟨"ujuno", 50⟩, 86400, ⟨"ucosm", 25⟩⟩ "lend" 100
        rfl rfl rfl (by decide) (Or.inl rfl) (by decide) (by decide)).2
      (by intro d hd; cases hd) 25 15 15 (by decide) (by decide) (by decide)).2
      (by decide) 0 (by decide)⟩

theorem spec_undelegations_all_zero (denom : String)
    (dels : List Delegation) (remaining : Nat)
    (hdels : ∀ d ∈ dels, d.amount.amount = 0) :
    spec_undelegations denom dels remaining = ([], 0) := by
  induction dels with
  | nil => rfl
  | cons d rest ih =>
    have hd0 := hdels d (List.mem_cons_self _ _)
    have hrest : ∀ x ∈ rest, x.amount.amount = 0 :=
      fun x hx => hdels x (List.mem_cons_of_mem _ hx)
    by_cases h0 : remaining = 0
    · simp [spec_undelegations, h0]
    · simp only [spec_undelegations, if_neg h0]
      rw [if_pos (by rw [hd0]; simp)]
      exact ih hrest

/-- Claim C10 (implicit): a bonded-denom liquidation never fails for lack
of funds.  For every eligible liquidate call whose collateral denom equals
the bonded denom (with the amount owed nonzero and within the 128-bit
transfer type), even when the balance, the claimable rewards and every
delegated stake are zero the call succeeds, emits no payment, reward or
undelegation instructions, leaves `OpenInterest`, `Lender` and `Expiry`
unchanged, and stores the full amount owed as the new outstanding debt in
the collateral denom. -/
theorem C10_bonded_liquidation_all_zero (s : VaultState) (sender : String)
    (env : EnvInfo) (oi : OpenInterest) (l : String) (exp : Nat)
    (hoi : s.open_interest = some oi) (hl : s.lender = some l)
    (hexp : s.open_interest_expiry = some exp)
    (htime : exp ≤ env.blockTime)
    (hauth : sender = s.owner ∨ sender = l)
    (hbonded : oi.collateral.denom = env.bondedDenom)
    (hbal : env.balances oi.collateral.denom = 0)
    (hrw : env.rewardsOf oi.collateral.denom = 0)
    (hdels : ∀ d ∈ env.delegations, d.amount.amount = 0)
    (hcompat : ∀ d, s.outstanding_debt = some d →
      d.denom = oi.collateral.denom) :
    ∀ owed, owed = spec_amount_owed s.outstanding_debt
        oi.collateral.amount →
      owed ≠ 0 → owed < U128_BOUND →
      liquidate s sender env =
          .ok (carriedDebt s oi.collateral.denom owed, []) ∧
        (carriedDebt s oi.collateral.denom owed).open_interest
          = s.open_interest ∧
        (carriedDebt s oi.collateral.denom owed).lender = s.lender ∧
        (carriedDebt s oi.collateral.denom owed).open_interest_expiry
          = s.open_interest_expiry := by
  intro owed howed h0 hfit
  have hctx := load_liquidation_context_eval hoi hl hexp htime hauth
  have hget := @get_outstanding_amount_eval
    { open_interest := oi, lender := l,
      denom := oi.collateral.denom,
      bonded_denom := env.bondedDenom } s hcompat
  rw [← howed] at hget
  have hcol := collect_funds_eval
    { open_interest := oi, lender := l, denom := oi.collateral.denom,
      bonded_denom := env.bondedDenom } env owed (by rw [hbal, hrw]; decide)
  have hsched := schedule_undelegations_eval
    { open_interest := oi, lender := l, denom := oi.collateral.denom,
      bonded_denom := env.bondedDenom } env (owed - 0) (by omega)
  have hzero := spec_undelegations_all_zero oi.collateral.denom
    env.delegations (owed - 0) hdels
  rw [hzero] at hsched
  have hfin := finalize_state_eval
    { open_interest := oi, lender := l, denom := oi.collateral.denom,
      bonded_denom := env.bondedDenom } s owed hfit
  refine ⟨?_, rfl, rfl, rfl⟩
  have havail : spec_available oi.collateral.denom env.bondedDenom
      (env.balances oi.collateral.denom) (env.rewardsOf oi.collateral.denom)
      owed = 0 := by
    unfold spec_available
    rw [if_pos ⟨hbonded, by omega⟩, hbal, hrw]
  rw [havail] at hcol
  have hmsgs : (if oi.collateral.denom = env.bondedDenom ∧
      env.balances oi.collateral.denom < owed ∧
      env.rewardsOf oi.collateral.denom ≠ 0 then
        env.delegations.map
          (fun d => VaultMsg.WithdrawDelegatorReward d.validator)
      else []) = [] := by
    rw [if_neg (by intro hc; exact hc.2.2 hrw)]
  rw [hmsgs] at hcol
  simp only [liquidate, hctx, hget, hcol]
  have hmin : min 0 owed = 0 := by omega
  rw [hmin]
  rw [if_pos rfl]
  simp only [if_neg (show ¬ (owed - 0 ≠ 0 ∧
    oi.collateral.denom ≠ env.bondedDenom) from
    fun hc => hc.2 hbonded)]
  simp only [hsched]
  have how0 : owed - 0 - 0 = owed := by omega
  rw [how0]
  simp only [hfin, carriedDebt]
  rw [if_neg h0]
  simp

/-- Witness for C10: an expired bonded-denom position owing 400 ucosm with
zero balance, zero rewards and a single zero-stake delegation liquidates
successfully with no instructions and carries the full 400 forward as
outstanding debt. -/
theorem C10_bonded_liquidation_all_zero_witness :
    (c10Env.balances "ucosm" = 0 ∧ c10Env.rewardsOf "ucosm" = 0 ∧
        c10State.outstanding_debt = none) ∧
      (liquidate c10State "owner" c10Env =
          .ok (carriedDebt c10State "ucosm" 400, []) ∧
        (carriedDebt c10State "ucosm" 400).open_interest
          = c10State.open_interest ∧
        (carriedDebt c10State "ucosm" 400).lender = c10State.lender ∧
        (carriedDebt c10State "ucosm" 400).open_interest_expiry
          = c10State.open_interest_expiry) :=
  ⟨⟨rfl, rfl, rfl⟩,
    C10_bonded_liquidation_all_zero c10State "owner" c10Env
      ⟨⟨"uusd", 1000⟩, ⟨"ujuno", 50⟩, 86400, ⟨"ucosm", 400⟩⟩ "lend" 100
      rfl rfl rfl (by decide) (Or.inl rfl) rfl rfl rfl (by decide)
      (by intro d hd; cases hd) 400 (by decide) (by decide) (by decide)⟩

theorem payout_message_ok_payment {ctx : LiquidationContext} {v : Nat}
    {m : VaultMsg} (h : payout_message ctx v = .ok m) :
    isPaymentMsg m = true := by
  unfold payout_message at h
  split at h
  · injection h with h1
    rw [← h1]
    rfl
  · exact absurd h (by simp)

theorem schedule_loop_msgs {denom : String} {dels : List Delegation}
    {rtu und : Nat} {msgs0 ms : List VaultMsg} {u : Nat}
    (h : schedule_undelegations_loop denom dels rtu und msgs0 = .ok (ms, u))
    (hacc : ∀ m ∈ msgs0, isUndelegateMsg m = true) :
    ∀ m ∈ ms, isUndelegateMsg m = true := by
  induction dels generalizing rtu und msgs0 with
  | nil =>
    simp only [schedule_undelegations_loop] at h
    injection h with h1
    have := congrArg Prod.fst h1
    simp only at this
    rw [← this]
    exact hacc
  | cons d rest ih =>
    simp only [schedule_undelegations_loop] at h
    split at h
    · injection h with h1
      have := congrArg Prod.fst h1
      simp only at this
      rw [← this]
      exact hacc
    · split at h
      · exact ih h hacc
      · split at h
        · refine ih h ?_
          intro m hm
          rcases List.mem_append.mp hm with hm1 | hm2
          · exact hacc m hm1
          · rcases List.mem_singleton.mp hm2 with hm3
            rw [hm3]
            rfl
        · exact absurd h (by simp)

theorem schedule_ok_msgs {ctx : LiquidationContext} {env : EnvInfo}
    {r : Nat} {ms : List VaultMsg} {u : Nat}
    (h : schedule_undelegations ctx env r = .ok (ms, u)) :
    ∀ m ∈ ms, isUndelegateMsg m = true := by
  unfold schedule_undelegations at h
  split at h
  · injection h with h1
    have := congrArg Prod.fst h1
    simp only at this
    rw [← this]
    intro m hm
    simp at hm
  · exact schedule_loop_msgs h (by intro m hm; simp at hm)

theorem liquidate_ok_shape {s : VaultState} {sender : String}
    {env : EnvInfo} {s' : VaultState} {msgs : List VaultMsg}
    (h : liquidate s sender env = .ok (s', msgs)) :
    ∃ A B C, msgs = A ++ B ++ C ∧
      (∀ m ∈ A, isRewardMsg m = true) ∧
      (∀ m ∈ B, isPaymentMsg m = true) ∧
      (∀ m ∈ C, isUndelegateMsg m = true) := by
  unfold liquidate at h
  split at h
  · exact absurd h (by simp)
  · rename_i ctx hctx
    split at h
    · exact absurd h (by simp)
    · rename_i remaining hrem
      split at h
      · exact absurd h (by simp)
      · rename_i available claimed rmsgs hcol
        split at h
        · exact absurd h (by simp)
        · rename_i pay_msgs hpay
          split at h
          · exact absurd h (by simp)
          · split at h
            · exact absurd h (by simp)
            · rename_i umsgs uamt hsched
              split at h
              · exact absurd h (by simp)
              · rename_i s1 hfin
                injection h with h1
                have hmsgs := congrArg Prod.snd h1
                simp only at hmsgs
                refine ⟨rmsgs, pay_msgs, umsgs, hmsgs.symm, ?_, ?_, ?_⟩
                · exact collect_funds_msgs hcol
                · split at hpay
                  · injection hpay with h2
                    rw [← h2]
                    intro m hm
                    simp at hm
                  · split at hpay
                    · exact absurd hpay (by simp)
                    · rename_i pm hpm
                      injection hpay with h2
                      rw [← h2]
                      intro m hm
                      rcases List.mem_singleton.mp hm with hm1
                      rw [hm1]
                      exact payout_message_ok_payment hpm
                · exact schedule_ok_msgs hsched

theorem index_lt_of_split {α} {L X Y : List α} (hL : L = X ++ Y)
    (p q : α → Bool) (hpY : ∀ m ∈ Y, p m = false)
    (hqX : ∀ m ∈ X, q m = false) :
    ∀ i j (hi : i < L.length) (hj : j < L.length),
      p (L.get ⟨i, hi⟩) = true → q (L.get ⟨j, hj⟩) = true → i < j := by
  subst hL
  intro i j hi hj hpi hqj
  have hilen : i < X.length := by
    by_contra hge
    push_neg at hge
    have hidx : i - X.length < Y.length := by
      simp only [List.length_append] at hi
      omega
    have hmem : (X ++ Y).get ⟨i, hi⟩ ∈ Y := by
      rw [List.get_eq_getElem, List.getElem_append_right hge]
      exact List.getElem_mem _
    rw [hpY _ hmem] at hpi
    exact Bool.false_ne_true hpi
  have hjlen : X.length ≤ j := by
    by_contra hlt
    push_neg at hlt
    have hmem : (X ++ Y).get ⟨j, hj⟩ ∈ X := by
      rw [List.get_eq_getElem, List.getElem_append_left hlt]
      exact List.getElem_mem _
    rw [hqX _ hmem] at hqj
    exact Bool.false_ne_true hqj
  omega

/-- Claim C5: Liquidation instruction ordering.  In the ordered outgoing
instruction list of every successful liquidate call, every reward-withdrawal
instruction appears before the payment instruction to the lender (when one
is present), and the payment instruction appears before every undelegation
instruction. -/
theorem C5_liquidation_message_order (s : VaultState) (sender : String)
    (env : EnvInfo) (s' : VaultState) (msgs : List VaultMsg)
    (h : liquidate s sender env = .ok (s', msgs)) :
    ∀ i j (hi : i < msgs.length) (hj : j < msgs.length),
      ((isRewardMsg (msgs.get ⟨i, hi⟩) = true ∧
          isPaymentMsg (msgs.get ⟨j, hj⟩) = true) ∨
       (isPaymentMsg (msgs.get ⟨i, hi⟩) = true ∧
          isUndelegateMsg (msgs.get ⟨j, hj⟩) = true)) → i < j := by
  obtain ⟨A, B, C, hm, hA, hB, hC⟩ := liquidate_ok_shape h
  intro i j hi hj hcase
  rcases hcase with ⟨hp, hq⟩ | ⟨hp, hq⟩
  · have hm' : msgs = A ++ (B ++ C) := by rw [hm, List.append_assoc]
    refine index_lt_of_split hm' isRewardMsg isPaymentMsg ?_ ?_ i j hi hj hp
      hq
    · intro m hmem
      rcases List.mem_append.mp hmem with h1 | h1
      · have := hB m h1
        cases m <;> simp_all [isRewardMsg, isPaymentMsg]
      · have := hC m h1
        cases m <;> simp_all [isRewardMsg, isUndelegateMsg]
    · intro m hmem
      have := hA m hmem
      cases m <;> simp_all [isRewardMsg, isPaymentMsg]
  · refine index_lt_of_split hm isPaymentMsg isUndelegateMsg ?_ ?_ i j hi hj
      hp hq
    · intro m hmem
      have := hC m hmem
      cases m <;> simp_all [isPaymentMsg, isUndelegateMsg]
    · intro m hmem
      rcases List.mem_append.mp hmem with h1 | h1
      · have := hA m h1
        cases m <;> simp_all [isRewardMsg, isUndelegateMsg, isPaymentMsg]
      · have := hB m h1
        cases m <;> simp_all [isPaymentMsg, isUndelegateMsg]

/-- Witness for C5: in the demo liquidation the two reward withdrawals
(indices 0, 1) precede the payment (index 2), which precedes the
undelegations (indices 3, 4). -/
theorem C5_liquidation_message_order_witness :
    liquidate c5State "owner" c5Env = .ok
        (clearedPosition c5State,
         [VaultMsg.WithdrawDelegatorReward "val1",
          VaultMsg.WithdrawDelegatorReward "val2",
          VaultMsg.BankSend "lend" [⟨"ucosm", 15⟩],
          VaultMsg.Undelegate "val1" ⟨"ucosm", 7⟩,
          VaultMsg.Undelegate "val2" ⟨"ucosm", 3⟩]) ∧
      0 < 2 ∧ 2 < 3 :=
  ⟨by rfl,
    C5_liquidation_message_order c5State "owner" c5Env _ _ (by rfl) 0 2
      (by decide) (by decide) (Or.inl ⟨by decide, by decide⟩),
    C5_liquidation_message_order c5State "owner" c5Env _ _ (by rfl) 2 3
      (by decide) (by decide) (Or.inr ⟨by decide, by decide⟩)⟩

/-- Claim C2: Eviction correctness.  In any escrow-balanced state whose
book holds exactly `MAX_COUNTER_OFFERS` entries, a propose passing every
other validation either (a) has an amount at most the current minimum and
fails with the not-competitive error naming that minimum as the threshold,
leaving the state unchanged, or (b) has an amount strictly above the
minimum and succeeds, removing exactly the first minimum-amount entry in
ascending address scan order, refunding its full escrowed liquidity coin to
its proposer in a single transfer, releasing that amount from the
outstanding debt while adding the new amount, and inserting the new entry
so the book stays at capacity. -/
theorem C2_eviction_correctness (s : VaultState) (sender : String)
    (funds : List Coin) (active proposed : OpenInterest)
    (hchain : bookSortedB s.counter_offers = true)
    (hlen : s.counter_offers.length = MAX_COUNTER_OFFERS)
    (hoi : s.open_interest = some active)
    (hlender : s.lender = none)
    (hdenoms : ∀ e ∈ s.counter_offers,
      e.2.liquidity_coin.denom = active.liquidity_coin.denom)
    (hdebt : s.outstanding_debt =
      some ⟨active.liquidity_coin.denom, bookSum s.counter_offers⟩)
    (hpd : proposed.liquidity_coin.denom = active.liquidity_coin.denom)
    (hpi : proposed.interest_coin = active.interest_coin)
    (hpc : proposed.collateral = active.collateral)
    (hpx : proposed.expiry_duration = active.expiry_duration)
    (hnz : proposed.liquidity_coin.amount ≠ 0)
    (hsm : proposed.liquidity_coin.amount < active.liquidity_coin.amount)
    (hesc : fundsSum funds proposed.liquidity_coin.denom =
      proposed.liquidity_coin.amount)
    (hdup : lookupBook s.counter_offers sender = none)
    (hov : bookSum s.counter_offers + proposed.liquidity_coin.amount
      < U256_BOUND) :
    (proposed.liquidity_coin.amount ≤ bookMinAmount s.counter_offers →
      propose s sender funds proposed =
          .error (.CounterOfferNotCompetitive
            (bookMinAmount s.counter_offers)
            proposed.liquidity_coin.denom) ∧
        applyOp s (.ProposeCall sender funds proposed) = s) ∧
    (bookMinAmount s.counter_offers < proposed.liquidity_coin.amount →
      ∃ waddr woffer,
        firstMinEntry s.counter_offers = some (waddr, woffer) ∧
        woffer.liquidity_coin.amount = bookMinAmount s.counter_offers ∧
        propose s sender funds proposed = .ok
          ({ s with
              counter_offers := insertBook sender proposed
                (removeBook s.counter_offers waddr),
              outstanding_debt := some (Coin.mk
                active.liquidity_coin.denom
                (bookSum s.counter_offers -
                  woffer.liquidity_coin.amount +
                  proposed.liquidity_coin.amount)) },
           [VaultMsg.BankSend waddr [woffer.liquidity_coin]]) ∧
        (insertBook sender proposed
          (removeBook s.counter_offers waddr)).length
            = MAX_COUNTER_OFFERS) := by
  have hsorted : BookSorted s.counter_offers := bookSorted_of_B hchain
  have hval : validate_counter_offer active proposed = .ok () := by
    unfold validate_counter_offer
    rw [if_neg (by simp [hpd, hpi, hpc, hpx]), if_neg hnz,
      if_neg (not_le.mpr hsm)]
  have hescok : validate_counter_offer_escrow funds proposed = .ok () := by
    unfold validate_counter_offer_escrow
    rw [if_neg (not_ne_iff.mpr hesc)]
  have hne : s.counter_offers ≠ [] := by
    intro hc
    rw [hc] at hlen
    exact absurd hlen (by decide)
  obtain ⟨first, rest, hbk⟩ := List.exists_cons_of_ne_nil hne
  rcases hfm : firstMinCons first rest with ⟨waddr, woffer⟩
  have hsnap : snapshot_counter_offer_capacity s.counter_offers =
      some (s.counter_offers.length, (waddr, woffer)) := by
    rw [hbk]
    simp only [snapshot_counter_offer_capacity]
    rw [scanWorst_eq, hfm]
    simp only [List.length_cons]
    rw [Nat.add_comm]
  have hmin : bookMinAmount s.counter_offers =
      woffer.liquidity_coin.amount := by
    rw [hbk]
    show minAmtFrom first rest = _
    rw [← firstMinCons_amount, hfm]
  have hnotlt : ¬ (s.counter_offers.length < MAX_COUNTER_OFFERS) := by
    omega
  constructor
  · intro hA
    have hdet : determine_eviction_candidate s.counter_offers proposed =
        .error (.CounterOfferNotCompetitive woffer.liquidity_coin.amount
          proposed.liquidity_coin.denom) := by
      unfold determine_eviction_candidate
      rw [hsnap]
      simp only
      rw [if_neg hnotlt, if_pos (by rw [← hmin]; exact hA)]
    refine ⟨?_, ?_⟩
    · simp only [propose, hoi, hlender, hval, hescok, hdup, hdet, hmin]
    · unfold applyOp stepOp
      simp only [propose, hoi, hlender, hval, hescok, hdup, hdet]
  · intro hB
    have hdet : determine_eviction_candidate s.counter_offers proposed =
        .ok (some (waddr, woffer)) := by
      unfold determine_eviction_candidate
      rw [hsnap]
      simp only
      rw [if_neg hnotlt, if_neg (by rw [← hmin]; omega)]
    have hwmem : (waddr, woffer) ∈ s.counter_offers := by
      rw [hbk, ← hfm]
      exact firstMinCons_mem rest first
    have hwden : woffer.liquidity_coin.denom =
        active.liquidity_coin.denom := hdenoms _ hwmem
    obtain ⟨hremsum, hremlen⟩ := removeBook_mem_sorted hsorted hwmem
    have hrel : release_outstanding_debt s.outstanding_debt
        woffer.liquidity_coin = .ok
          (if bookSum s.counter_offers - woffer.liquidity_coin.amount = 0
           then none
           else some ⟨active.liquidity_coin.denom,
             bookSum s.counter_offers - woffer.liquidity_coin.amount⟩) := by
      simp only [release_outstanding_debt, hdebt]
      rw [if_neg (not_ne_iff.mpr hwden.symm), if_pos (by omega)]
    have hadd : add_outstanding_debt
        (if bookSum s.counter_offers - woffer.liquidity_coin.amount = 0
         then none
         else some ⟨active.liquidity_coin.denom,
           bookSum s.counter_offers - woffer.liquidity_coin.amount⟩)
        proposed.liquidity_coin = .ok
          (some (Coin.mk active.liquidity_coin.denom
            (bookSum s.counter_offers - woffer.liquidity_coin.amount +
              proposed.liquidity_coin.amount))) := by
      by_cases hz : bookSum s.counter_offers -
          woffer.liquidity_coin.amount = 0
      · rw [if_pos hz]
        simp only [add_outstanding_debt]
        rw [hz]
        have : proposed.liquidity_coin =
            Coin.mk active.liquidity_coin.denom
              (0 + proposed.liquidity_coin.amount) := by
          cases hlc : proposed.liquidity_coin with
          | mk d a =>
            rw [hlc] at hpd
            simp only at hpd ⊢
            rw [hpd]
            simp
        rw [← this]
      · rw [if_neg hz]
        simp only [add_outstanding_debt]
        rw [if_neg (not_ne_iff.mpr hpd.symm), if_pos (by omega)]
    refine ⟨waddr, woffer, ?_, hmin.symm, ?_, ?_⟩
    · rw [hbk, firstMinEntry_cons, hfm]
    · simp only [propose, hoi, hlender, hval, hescok, hdup, hdet, hrel,
        hadd]
    · rw [length_insert _ (lookup_removeBook_none hdup)]
      omega

set_option maxRecDepth 40000 in
/-- Witness for C2: on the full 255-entry book (minimum 100 at address
"000"), proposing 500 evicts and refunds exactly that entry and keeps the
book at capacity. -/
theorem C2_eviction_correctness_witness :
    (book255.length = MAX_COUNTER_OFFERS ∧ bookSortedB book255 = true ∧
        lookupBook book255 "fresh" = none) ∧
      (∃ waddr woffer,
        firstMinEntry c2State.counter_offers = some (waddr, woffer) ∧
        woffer.liquidity_coin.amount = bookMinAmount c2State.counter_offers ∧
        propose c2State "fresh" [⟨"uusd", 500⟩] (offerAt 500) = .ok
          ({ c2State with
              counter_offers := insertBook "fresh" (offerAt 500)
                (removeBook c2State.counter_offers waddr),
              outstanding_debt := some (Coin.mk
                demoTerms.liquidity_coin.denom
                (bookSum c2State.counter_offers -
                  woffer.liquidity_coin.amount +
                  (offerAt 500).liquidity_coin.amount)) },
           [VaultMsg.BankSend waddr [woffer.liquidity_coin]]) ∧
        (insertBook "fresh" (offerAt 500)
          (removeBook c2State.counter_offers waddr)).length
            = MAX_COUNTER_OFFERS) :=
  ⟨⟨by decide, by decide, by decide⟩,
    (C2_eviction_correctness c2State "fresh" [⟨"uusd", 500⟩] demoTerms
        (offerAt 500) (by decide) (by decide) rfl rfl (by decide)
        (by decide) rfl rfl rfl rfl (by decide) (by decide) (by decide)
        (by decide) (by decide)).2 (by decide)⟩

/-- Claim C3 (code bug): the specification states that a successful accept
sets `Expiry` to the current block time plus the accepted offer's
`expiry_duration`, but `accept` never writes `OPEN_INTEREST_EXPIRY` (it
saves only the lender, the open interest and the cleared debt) — unlike
`fund`, which goes through `set_active_lender`.  After a successful accept
the expiry is still `None` while the lender is set, so a later liquidate
fails with the code's own internal consistency error "open interest expiry
missing despite lender being set".  This theorem evaluates the embedded
code at a concrete failing input: accepting bob's 950 uusd offer succeeds
(refunding alice, binding bob, clearing the book and the debt) yet leaves
the expiry unset and makes liquidation impossible. -/
theorem C3_accept_missing_expiry :
    accept c3State "owner" "bob" (offerAt 950) =
        .ok (⟨"owner", some "bob", none, some (offerAt 950), none, []⟩,
          [VaultMsg.BankSend "alice" [⟨"uusd", 900⟩]]) ∧
      (⟨"owner", some "bob", none, some (offerAt 950), none, []⟩
          : VaultState).lender = some "bob" ∧
      (⟨"owner", some "bob", none, some (offerAt 950), none, []⟩
          : VaultState).open_interest_expiry = none ∧
      liquidate ⟨"owner", some "bob", none, some (offerAt 950), none, []⟩
          "owner" lateEnv =
        .error (.Std
          "open interest expiry missing despite lender being set") :=
  ⟨by rfl, rfl, rfl, by rfl⟩
